import Mathlib

/-!
Verification of the stw-saver backend (main.py) against its specification.

The Python source is shallowly embedded: the tracker record and every
mutation the source performs on it become explicit Lean values; each
observable tracker state (one per in-place mutation or whole-record
assignment in the source) is collected into a trace, so properties about
"observable states" are properties of trace members.  External effects
(media libraries, HTTP responses, the filesystem listing, ffmpeg) are
supplied as oracle inputs; everything the source itself computes is
translated literally.  Python float expressions of the form
int((a / b) * k) (with a, b nonnegative, b positive) are embedded as the
exact floor division (k * a) / b.
-/

deriving instance DecidableEq for Except

/-- Embeds the pydantic model ConversionStatus (main.py:64-71); this is the
ProgressRecord of the spec. -/
structure ConversionStatus where
  file_id : String
  progress : Int
  status : String
  download_url : Option String
  filename : Option String
  estimated_time : Option Int
  message : Option String
deriving DecidableEq, Repr

/-- The dict returned by a successful download method
(main.py:403-411, 711-719, 782-790, 867-875). -/
structure DlResult where
  file_id : String
  filename : String
  download_url : String
  title : String
  format : String
  quality : Option String
  platform : String
deriving DecidableEq, Repr

/-- Python truthiness of an Optional[str]: non-None and non-empty. -/
def truthyStr : Option String → Bool
  | none => false
  | some s => !(s == "")

/-- Embeds str.lower (ASCII range, as Char.toLower is ASCII-only). -/
def lowerStr (s : String) : String := ⟨s.data.map Char.toLower⟩

/-- Substring test on character lists (Python's `x in s`). -/
def listContains (needle : List Char) : List Char → Bool
  | [] => needle.isEmpty
  | l@(_ :: t) => needle.isPrefixOf l || listContains needle t

/-- Python's `needle in hay` for strings. -/
def containsStr (hay needle : String) : Bool := listContains needle.data hay.data

/-- Embeds detect_platform (main.py:191-205).  Errors model the raised
ValueError("Unsupported platform. ..."). -/
def detect_platform (url : String) : Except String String :=
  let u := lowerStr url
  if containsStr u "youtube.com" || containsStr u "youtu.be" then .ok "youtube"
  else if containsStr u "instagram.com" then .ok "instagram"
  else if containsStr u "tiktok.com" then .ok "tiktok"
  else if containsStr u "twitter.com" || containsStr u "x.com" then .ok "twitter"
  else if containsStr u "facebook.com" || containsStr u "fb.watch" then .ok "facebook"
  else .error "Unsupported platform. Currently supported: YouTube, Instagram"

/-- The spec's fixed ordered table of host fragments (spec section 4.1),
written from the spec's words for the refinement statement of claim C7. -/
def platformTable : List (String × String) :=
  [("youtube.com", "youtube"), ("youtu.be", "youtube"),
   ("instagram.com", "instagram"),
   ("tiktok.com", "tiktok"),
   ("twitter.com", "twitter"), ("x.com", "twitter"),
   ("facebook.com", "facebook"), ("fb.watch", "facebook")]

/-- First-match lookup over an ordered fragment table (spec section 4.1:
"evaluated in table order, first match wins"). -/
def resolveTable (u : String) : List (String × String) → Except String String
  | [] => .error "Unsupported platform. Currently supported: YouTube, Instagram"
  | e :: rest => if containsStr (lowerStr u) e.1 then .ok e.2 else resolveTable u rest

/-- Spec-side resolver: first table entry whose fragment occurs in the
lowercased URL wins; no match fails with the unsupported-platform error. -/
def tableResolve (url : String) : Except String String :=
  resolveTable url platformTable

example : detect_platform "https://YouTu.be/abc" = .ok "youtube" := by decide
example : detect_platform "https://netflix.com/w" = .ok "twitter" := by decide
example : detect_platform "https://example.org/v" =
    .error "Unsupported platform. Currently supported: YouTube, Instagram" := by decide

/-- Python str.replace: replace every (non-overlapping, left-to-right)
occurrence of a non-empty pattern.  Structural recursion on a fuel bound
(any fuel at least the list length gives the replacement). -/
def replaceFuel (pat rep : List Char) : Nat → List Char → List Char
  | _, [] => []
  | 0, l => l
  | fuel + 1, c :: t =>
    if pat ≠ [] ∧ pat.isPrefixOf (c :: t) then
      rep ++ replaceFuel pat rep fuel ((c :: t).drop pat.length)
    else c :: replaceFuel pat rep fuel t

/-- Python str.replace lifted to String. -/
def strReplace (s pat rep : String) : String :=
  ⟨replaceFuel pat.data rep.data s.data.length s.data⟩

example : strReplace "480p" "p" "" = "480" := by decide
example : strReplace "a.mp4.mp4" ".mp4" ".mp3" = "a.mp3.mp3" := by decide

/-- The characters removed by sanitize_filename's regex [<>:"/\\|?*]
(main.py:137). -/
def badChar (c : Char) : Bool :=
  c == '<' || c == '>' || c == ':' || c == '\"' || c == '/' || c == '\\' ||
  c == '|' || c == '?' || c == '*'

/-- Index just after the last occurrence of `c`, if any (helper for
os.path.splitext and str.rsplit). -/
def lastIdxOf (c : Char) (l : List Char) : Option Nat :=
  match l with
  | [] => none
  | x :: t =>
    match lastIdxOf c t with
    | some i => some (i + 1)
    | none => if x == c then some 0 else none

/-- os.path.splitext for a path with no directory separator (sanitize has
already removed every / and \\): splits at the last dot provided some
non-dot character precedes it; otherwise the extension is empty
(CPython genericpath._splitext with sepIndex = -1). -/
def splitext (l : List Char) : List Char × List Char :=
  match lastIdxOf '.' l with
  | none => (l, [])
  | some i =>
    if (l.take i).any (fun c => !(c == '.')) then (l.take i, l.drop i) else (l, [])

/-- Embeds sanitize_filename (main.py:134-144): strip the invalid
characters, replace spaces by underscores, and truncate names longer than
200 characters keeping the extension. -/
def sanitize_filename (s : String) : String :=
  let s1 := s.data.filter (fun c => !badChar c)
  let s2 := s1.map (fun c => if c == ' ' then '_' else c)
  if s2.length > 200 then
    let p := splitext s2
    ⟨p.1.take 195 ++ p.2⟩
  else ⟨s2⟩

example : sanitize_filename "a b<c>/d" = "a_bcd" := by decide

/-- Digits of a decimal literal folded to a Nat (int() on a digit string). -/
def digitsToNat (l : List Char) : Nat := l.foldl (fun a c => a * 10 + (c.toNat - 48)) 0

/-- Python int(s) on a plain optionally-signed decimal string (no
whitespace or underscores, which never occur in quality strings);
None models the ValueError. -/
def parseIntPy (s : String) : Option Int :=
  match s.data with
  | [] => none
  | '-' :: rest =>
    if rest ≠ [] ∧ rest.all (·.isDigit) then some (-(digitsToNat rest : Int)) else none
  | '+' :: rest =>
    if rest ≠ [] ∧ rest.all (·.isDigit) then some (digitsToNat rest : Int) else none
  | l => if l.all (·.isDigit) then some (digitsToNat l : Int) else none

example : parseIntPy "480" = some 480 := by decide
example : parseIntPy "48p" = none := by decide

/-- int(quality.replace('p', '')) from main.py:639. -/
def quality_num (q : String) : Option Int := parseIntPy (strReplace q "p" "")

/-- One entry of media_info.video_versions (instagrapi). -/
structure VideoVersion where
  height : Int
  url : String
deriving DecidableEq, Repr

/-- The quality-selection loop of main.py:640-643: first listed version
whose height is at most quality_num + 100 ("allow some flexibility"). -/
def selectLoop (qn : Int) : List VideoVersion → Option String
  | [] => none
  | v :: rest => if v.height ≤ qn + 100 then some v.url else selectLoop qn rest

/-- Embeds the video-URL selection of main.py:636-643: default to
video_versions[0].url; when a truthy quality was requested, take the first
version with height ≤ quality_num + 100, keeping the default when none
qualifies.  The error models the ValueError raised by int() for a
malformed quality string. -/
def select_video_url (versions : List VideoVersion) (quality : Option String) :
    Except String String :=
  let dflt := (versions.headD ⟨0, ""⟩).url
  match quality with
  | none => .ok dflt
  | some q =>
    if q == "" then .ok dflt
    else
      match quality_num q with
      | none => .error ("invalid literal for int() with base 10: " ++ strReplace q "p" "")
      | some qn => .ok ((selectLoop qn versions).getD dflt)

example : select_video_url [⟨360, "u360"⟩, ⟨480, "u480"⟩, ⟨720, "u720"⟩] (some "480p") =
    .ok "u360" := by decide

/-- Characters matched by [A-Za-z0-9_-] in the shortcode regexes. -/
def shortChar (c : Char) : Bool := c.isAlphanum || c == '_' || c == '-'

/-- Attempt to match one shortcode regex at the current position: literal
prefix followed by a non-empty run of shortcode characters (the greedy
capture group). -/
def matchShortAt (pat l : List Char) : Option (List Char) :=
  if pat.isPrefixOf l then
    let run := (l.drop pat.length).takeWhile shortChar
    if run.isEmpty then none else some run
  else none

/-- re.search for one shortcode pattern: leftmost position where the whole
pattern (literal plus non-empty capture) matches. -/
def searchShort (pat : List Char) : List Char → Option (List Char)
  | [] => none
  | l@(_ :: t) =>
    match matchShortAt pat l with
    | some r => some r
    | none => searchShort pat t

/-- Embeds extract_instagram_shortcode (main.py:207-219): the three
patterns are tried in order, each with leftmost-match search. -/
def extract_instagram_shortcode (url : String) : Option String :=
  match searchShort "instagram.com/p/".data url.data with
  | some r => some ⟨r⟩
  | none =>
    match searchShort "instagram.com/reel/".data url.data with
    | some r => some ⟨r⟩
    | none =>
      match searchShort "instagram.com/tv/".data url.data with
      | some r => some ⟨r⟩
      | none => none

example : extract_instagram_shortcode "https://www.instagram.com/p/AbC_1-x/?u=2" =
    some "AbC_1-x" := by decide
example : extract_instagram_shortcode "https://youtu.be/xyz" = none := by decide

/-- Python max(files, key=ctime): first element with the strictly greatest
key (main.py:358-361, 769).  Files are (name, ctime) pairs. -/
def pickMax (files : List (String × Int)) : String :=
  match files with
  | [] => ""
  | f :: t => (t.foldl (fun b x => if x.2 > b.2 then x else b) f).1

/-- filename.rsplit('.', 1)[0]: everything before the last dot, or the
whole string when there is none (main.py:367). -/
def rsplitBase (s : String) : String :=
  match lastIdxOf '.' s.data with
  | none => s
  | some i => ⟨s.data.take i⟩

/-- The yt-dlp format selector chosen by YouTubeDownloader.download_video
(main.py:311-330); the at-or-below height cap is delegated to yt-dlp via
this string. -/
def youtube_format (format_type : String) (quality : Option String) : String :=
  if format_type == "mp3" then "bestaudio/best"
  else
    match quality with
    | some q =>
      let qn := strReplace q "p" ""
      if qn.data ≠ [] ∧ qn.data.all (·.isDigit) then
        "bestvideo[height<=" ++ qn ++ "]+bestaudio/best"
      else "bestvideo+bestaudio/best"
    | none => "bestvideo+bestaudio/best"

/-- The record installed by POST download (main.py:944-952) when a job is
accepted, before the background unit starts. -/
def pendingRecord (fid : String) : ConversionStatus :=
  ⟨fid, 0, "pending", none, none, some 120, some "Preparing download..."⟩

/-- One call of yt-dlp's progress hook as seen by
YouTubeDownloader.progress_hook (main.py:426-442): the fields of the dict
d that the hook reads. -/
inductive YTHookEvent where
  | downloading (dlBytes : Int) (totalBytes : Option Int) (totalEstimate : Option Int)
  | finished
deriving DecidableEq, Repr

/-- The three-band percentage of the hooks: min(80, 20 + int(progress*0.6))
with progress = int((downloaded/total)*100) (main.py:432-437, 801-803). -/
def hookPercent (dl total : Int) : Int := min 80 (20 + 3 * ((100 * dl) / total) / 5)

/-- Embeds YouTubeDownloader.progress_hook (main.py:426-442) applied to one
event: snapshots produced (one per field mutation) and the new record. -/
def yt_hook_step (ev : YTHookEvent) (s : ConversionStatus) :
    List ConversionStatus × ConversionStatus :=
  match ev with
  | .downloading dl tb te =>
    match tb with
    | some t =>
      if 0 < t then
        let s' := { s with progress := hookPercent dl t }
        ([s'], s')
      else
        match te with
        | some t' =>
          if 0 < t' then
            let s' := { s with progress := hookPercent dl t' }
            ([s'], s')
          else ([], s)
        | none => ([], s)
    | none =>
      match te with
      | some t' =>
        if 0 < t' then
          let s' := { s with progress := hookPercent dl t' }
          ([s'], s')
        else ([], s)
      | none => ([], s)
  | .finished =>
    let a := { s with progress := 80 }
    let b := { a with status := "finalizing" }
    let c := { b with message := some "Processing downloaded file..." }
    ([a, b, c], c)

/-- Run the YouTube hook over the event sequence the external fetcher
produced, threading the tracker record. -/
def run_yt_hooks : List YTHookEvent → ConversionStatus →
    List ConversionStatus × ConversionStatus
  | [], s => ([], s)
  | ev :: rest, s =>
    let p := yt_hook_step ev s
    let q := run_yt_hooks rest p.2
    (p.1 ++ q.1, q.2)

/-- Embeds InstagramDownloader._ytdlp_progress_hook (main.py:795-803):
only downloading events carrying a positive total_bytes update progress.
Events are (downloaded_bytes, total_bytes) pairs; a nonpositive total
stands for a missing or zero total_bytes key. -/
def ytdlp_hook_step (ev : Int × Int) (s : ConversionStatus) :
    List ConversionStatus × ConversionStatus :=
  if 0 < ev.2 then
    let s' := { s with progress := hookPercent ev.1 ev.2 }
    ([s'], s')
  else ([], s)

/-- Run the Instagram yt-dlp hook over its event sequence. -/
def run_ytdlp_hooks : List (Int × Int) → ConversionStatus →
    List ConversionStatus × ConversionStatus
  | [], s => ([], s)
  | ev :: rest, s =>
    let p := ytdlp_hook_step ev s
    let q := run_ytdlp_hooks rest p.2
    (p.1 ++ q.1, q.2)

/-- Embeds the chunked-download loop of main.py:658-669: downloaded bytes
accumulate chunk by chunk and, when a positive content-length is known,
progress is set to min(70, 30 + int((downloaded/total)*40)). -/
def chunkLoopAux (total : Int) (downloaded : Int) :
    List Nat → ConversionStatus → List ConversionStatus × ConversionStatus
  | [], s => ([], s)
  | c :: rest, s =>
    let d := downloaded + (c : Int)
    if 0 < total then
      let s' := { s with progress := min 70 (30 + (40 * d) / total) }
      let q := chunkLoopAux total d rest s'
      (s' :: q.1, q.2)
    else
      chunkLoopAux total d rest s

/-- An acquisition strategy as the chain executor sees it: from the current
tracker record, the observable snapshots it produces, the record it leaves
behind, and its outcome (the returned dict or the raised exception's
message). -/
abbrev Attempt := ConversionStatus →
    List ConversionStatus × ConversionStatus × Except String DlResult

/-- External world of _download_with_instagrapi (main.py:612-722). -/
structure MediaInfo where
  media_type : Int
  video_versions : List VideoVersion
  username : String
deriving DecidableEq, Repr

structure InstaOracle where
  clientAvailable : Bool
  mediaRes : Except String MediaInfo
  timestamp : String
  httpStatus : Int
  totalSize : Int
  chunks : List Nat
  ffmpegRaises : Bool
  audioExists : Bool
deriving Repr

/-- Embeds _download_with_instagrapi (main.py:612-722).  Every in-place
field assignment to conversion_statuses[file_id] yields one snapshot; the
completion is the single whole-record assignment of main.py:701-709. -/
def download_with_instagrapi (fid fmt : String) (q : Option String) (o : InstaOracle) :
    Attempt := fun s =>
  if !o.clientAvailable then ([], s, .error "instagrapi not available")
  else
    let s1 := { s with progress := 10 }
    let s2 := { s1 with message := some "Fetching Instagram video info..." }
    match o.mediaRes with
    | .error e => ([s1, s2], s2, .error ("instagrapi download failed: " ++ e))
    | .ok mi =>
      if mi.media_type ≠ 2 then
        ([s1, s2], s2, .error "instagrapi download failed: Not a video post")
      else
        let s3 := { s2 with progress := 30 }
        let s4 := { s3 with message := some "Downloading video..." }
        if mi.video_versions.isEmpty then
          ([s1, s2, s3, s4], s4, .error "instagrapi download failed: No video versions found")
        else
          match select_video_url mi.video_versions q with
          | .error e => ([s1, s2, s3, s4], s4, .error ("instagrapi download failed: " ++ e))
          | .ok _ =>
            let filename :=
              sanitize_filename (mi.username ++ "_instagram_" ++ o.timestamp ++ ".mp4")
            if o.httpStatus ≠ 200 then
              ([s1, s2, s3, s4], s4,
               .error ("instagrapi download failed: Download failed with status "
                       ++ toString o.httpStatus))
            else
              let cl := chunkLoopAux o.totalSize 0 o.chunks s4
              let s6 := { cl.2 with progress := 70 }
              let conv :
                  List ConversionStatus × ConversionStatus × String × String :=
                if fmt == "mp3" then
                  let m1 := { s6 with status := "converting" }
                  let m2 := { m1 with message := some "Converting to MP3..." }
                  let audio := strReplace filename ".mp4" ".mp3"
                  if o.ffmpegRaises then ([m1, m2], m2, filename, "mp4")
                  else if o.audioExists then ([m1, m2], m2, audio, fmt)
                  else ([m1, m2], m2, filename, fmt)
                else ([], s6, filename, fmt)
              let fn := conv.2.2.1
              let durl := "/download/" ++ fid ++ "/" ++ fn
              let done : ConversionStatus :=
                ⟨fid, 100, "completed", some durl, some fn, some 0,
                 some "Download completed successfully!"⟩
              ([s1, s2, s3, s4] ++ cl.1 ++ [s6] ++ conv.1 ++ [done], done,
               .ok ⟨fid, fn, durl, mi.username ++ "_instagram", conv.2.2.2, q, "instagram"⟩)

/-- External world of _download_with_ytdlp (main.py:724-793). -/
structure YtdlpOracle where
  available : Bool
  infoRes : Except String String
  hookEvents : List (Int × Int)
  downloadRes : Except String Unit
  files : List (String × Int)
deriving Repr

/-- Embeds _download_with_ytdlp (main.py:724-793). -/
def download_with_ytdlp (fid fmt : String) (q : Option String) (o : YtdlpOracle) :
    Attempt := fun s =>
  if !o.available then ([], s, .error "yt-dlp not available")
  else
    let s1 := { s with progress := 10 }
    let s2 := { s1 with message := some "Using yt-dlp for Instagram download..." }
    match o.infoRes with
    | .error e => ([s1, s2], s2, .error ("yt-dlp download failed: " ++ e))
    | .ok rawTitle =>
      let title := sanitize_filename rawTitle
      let s3 := { s2 with progress := 20 }
      let s4 := { s3 with status := "downloading" }
      let hk := run_ytdlp_hooks o.hookEvents s4
      match o.downloadRes with
      | .error e =>
        ([s1, s2, s3, s4] ++ hk.1, hk.2, .error ("yt-dlp download failed: " ++ e))
      | .ok _ =>
        if o.files.isEmpty then
          ([s1, s2, s3, s4] ++ hk.1, hk.2, .error "yt-dlp download failed: No file downloaded")
        else
          let filename := pickMax o.files
          let durl := "/download/" ++ fid ++ "/" ++ filename
          let done : ConversionStatus :=
            ⟨fid, 100, "completed", some durl, some filename, some 0,
             some "Download completed with yt-dlp!"⟩
          ([s1, s2, s3, s4] ++ hk.1 ++ [done], done,
           .ok ⟨fid, filename, durl, title, fmt, q, "instagram"⟩)

/-- External world of _download_with_requests_fallback (main.py:805-880). -/
structure FallbackOracle where
  oembedStatus : Int
  oembedTitle : String
  apiStatus : Int
  hasVideo : Bool
  videoStatus : Int
deriving Repr

/-- Embeds _download_with_requests_fallback (main.py:805-880).  The local
variable `title` is only assigned when the oEmbed request returns 200
(main.py:825-827); when it is unbound, building the return dict at
main.py:871 raises after the completed record has already been published
at main.py:857. -/
def download_with_requests_fallback (url fid fmt : String) (q : Option String)
    (o : FallbackOracle) : Attempt := fun s =>
  let s1 := { s with progress := 10 }
  let s2 := { s1 with message := some "Using fallback download method..." }
  match extract_instagram_shortcode url with
  | none =>
    ([s1, s2], s2, .error "Fallback download failed: Could not extract Instagram shortcode")
  | some sc =>
    let titleOpt : Option String := if o.oembedStatus = 200 then some o.oembedTitle else none
    if o.apiStatus = 200 ∧ o.hasVideo then
      let filename := "instagram_" ++ sc ++ ".mp4"
      let durl := "/download/" ++ fid ++ "/" ++ filename
      let done : ConversionStatus :=
        ⟨fid, 100, "completed", some durl, some filename, some 0,
         some "Download completed with fallback method!"⟩
      match titleOpt with
      | some t => ([s1, s2, done], done, .ok ⟨fid, filename, durl, t, fmt, q, "instagram"⟩)
      | none =>
        ([s1, s2, done], done,
         .error "Fallback download failed: local variable referenced before assignment")
    else
      ([s1, s2], s2, .error "Fallback download failed: Fallback download method failed")

/-- str(last_error) in the composite message (main.py:607): Python prints
None when no strategy ever ran. -/
def errStr : Option String → String
  | none => "None"
  | some e => e

/-- Embeds the strategy-chain loop of InstagramDownloader.download_video
(main.py:587-610): announce each strategy, run it, catch its failure and
remember it as last_error, and after exhaustion mark the record failed
with the composite message.  Returns (snapshots, final record, the list of
errors caught and logged in order, outcome). -/
def runChain (s : ConversionStatus) (methods : List (String × Attempt))
    (lastErr : Option String) :
    List ConversionStatus × ConversionStatus × List String × Except String DlResult :=
  match methods with
  | [] =>
    let msg := "All download methods failed. Last error: " ++ errStr lastErr
    let f1 := { s with status := "failed" }
    let f2 := { f1 with message := some msg }
    ([f1, f2], f2, [], .error msg)
  | (nm, m) :: rest =>
    let s1 := { s with message := some ("Trying " ++ nm ++ " method...") }
    let r := m s1
    match r.2.2 with
    | .ok res => (s1 :: r.1, r.2.1, [], .ok res)
    | .error e =>
      let rc := runChain r.2.1 rest (some e)
      (s1 :: r.1 ++ rc.1, rc.2.1, e :: rc.2.2.1, rc.2.2.2)

/-- Embeds InstagramDownloader.download_video (main.py:564-610): install
the initializing record, then run the three methods in configured order. -/
def instagram_download (url fid fmt : String) (q : Option String)
    (o1 : InstaOracle) (o2 : YtdlpOracle) (o3 : FallbackOracle) :
    List ConversionStatus × ConversionStatus × List String × Except String DlResult :=
  let s0 : ConversionStatus :=
    ⟨fid, 5, "initializing", none, none, some 60, some "Starting Instagram download..."⟩
  let r := runChain s0
    [("instagrapi", download_with_instagrapi fid fmt q o1),
     ("ytdlp", download_with_ytdlp fid fmt q o2),
     ("requests_fallback", download_with_requests_fallback url fid fmt q o3)] none
  (s0 :: r.1, r.2)

/-- External world of YouTubeDownloader.download_video (main.py:278-423). -/
structure YTOracle where
  available : Bool
  infoRes : Except String String
  hookEvents : List YTHookEvent
  downloadRes : Except String Unit
  files : List (String × Int)
  ffmpegRaises : Bool
  audioExists : Bool
deriving Repr

/-- The whole-record failure assignment of main.py:414-422. -/
def ytFailRecord (fid e : String) : ConversionStatus :=
  ⟨fid, 0, "failed", none, none, some 0, some ("Download failed: " ++ e)⟩

/-- Embeds YouTubeDownloader.download_video (main.py:278-423).  When
yt-dlp is unavailable the HTTPException is raised before the record is
touched, so the incoming record s is left in place. -/
def youtube_download (fid fmt : String) (q : Option String) (o : YTOracle)
    (s : ConversionStatus) :
    List ConversionStatus × ConversionStatus × Except String DlResult :=
  if !o.available then ([], s, .error "YouTube downloader not available")
  else
    let s1 : ConversionStatus :=
      ⟨fid, 5, "initializing", none, none, some 120, some "Starting YouTube download..."⟩
    let s2 := { s1 with progress := 10 }
    let s3 := { s2 with status := "fetching_info" }
    let s4 := { s3 with message := some "Fetching video information..." }
    match o.infoRes with
    | .error e =>
      let f := ytFailRecord fid e
      ([s1, s2, s3, s4, f], f, .error ("Download failed: " ++ e))
    | .ok rawTitle =>
      let title := sanitize_filename rawTitle
      let s5 := { s4 with progress := 20 }
      let s6 := { s5 with status := "downloading" }
      let s7 := { s6 with message := some "Downloading video..." }
      let hk := run_yt_hooks o.hookEvents s7
      match o.downloadRes with
      | .error e =>
        let f := ytFailRecord fid e
        ([s1, s2, s3, s4, s5, s6, s7] ++ hk.1 ++ [f], f, .error ("Download failed: " ++ e))
      | .ok _ =>
        if o.files.isEmpty then
          let f := ytFailRecord fid "No file was downloaded"
          ([s1, s2, s3, s4, s5, s6, s7] ++ hk.1 ++ [f], f,
           .error "Download failed: No file was downloaded")
        else
          let filename := pickMax o.files
          let conv :
              List ConversionStatus × ConversionStatus × String :=
            if fmt == "mp3" ∧ ¬ (".mp3".data.isSuffixOf filename.data) then
              let c1 := { hk.2 with progress := 80 }
              let c2 := { c1 with status := "converting" }
              let c3 := { c2 with message := some "Converting to MP3..." }
              let audio := rsplitBase filename ++ ".mp3"
              if o.ffmpegRaises then ([c1, c2, c3], c3, filename)
              else if o.audioExists then ([c1, c2, c3], c3, audio)
              else ([c1, c2, c3], c3, filename)
            else ([], hk.2, filename)
          let fn := conv.2.2
          let durl := "/download/" ++ fid ++ "/" ++ fn
          let done : ConversionStatus :=
            ⟨fid, 100, "completed", some durl, some fn, some 0,
             some "Download completed successfully!"⟩
          ([s1, s2, s3, s4, s5, s6, s7] ++ hk.1 ++ conv.1 ++ [done], done,
           .ok ⟨fid, fn, durl, title, fmt, q, "youtube"⟩)

/-- The observable tracker states of a whole Instagram job: the pending
record installed by POST download followed by the background unit's
snapshots. -/
def instagram_job_trace (url fid fmt : String) (q : Option String)
    (o1 : InstaOracle) (o2 : YtdlpOracle) (o3 : FallbackOracle) : List ConversionStatus :=
  pendingRecord fid :: (instagram_download url fid fmt q o1 o2 o3).1

/-- The observable tracker states of a whole YouTube job. -/
def youtube_job_trace (fid fmt : String) (q : Option String) (o : YTOracle) :
    List ConversionStatus :=
  pendingRecord fid :: (youtube_download fid fmt q o (pendingRecord fid)).1

/-- The conversion_statuses dict (main.py:109), as an association list. -/
abbrev StatusMap := List (String × ConversionStatus)

/-- Dict lookup. -/
def lookupS : StatusMap → String → Option ConversionStatus
  | [], _ => none
  | (k', v) :: t, k => if k' == k then some v else lookupS t k

/-- Dict assignment conversion_statuses[k] = v. -/
def setS : StatusMap → String → ConversionStatus → StatusMap
  | [], k, v => [(k, v)]
  | (k', v') :: t, k, v =>
    if k' == k then (k, v) :: t else (k', v') :: setS t k v

/-- del conversion_statuses[k] (a no-op when absent, matching the guarded
deletes in the source). -/
def delS (m : StatusMap) (k : String) : StatusMap := m.filter (fun p => !(p.1 == k))

/-- Embeds GET /api/progress/{file_id} (main.py:1010-1025).  dirExists
models os.path.exists(DOWNLOADS_DIR/file_id).  The three in-place
mutations of the lazy expiry are a status, a progress and a message
assignment on the stored record; the endpoint returns the record after
them, together with the updated map. -/
def get_progress (m : StatusMap) (dirExists : Bool) (fid : String) :
    Except Nat (ConversionStatus × StatusMap) :=
  match lookupS m fid with
  | none => .error 404
  | some st =>
    if (st.status == "completed" || st.status == "failed") && truthyStr st.download_url
        && !dirExists then
      let st1 := { st with status := "expired" }
      let st2 := { st1 with progress := 0 }
      let st3 := { st2 with message := some "File has expired and been deleted" }
      .ok (st3, setS m fid st3)
    else .ok (st, m)

/-- One entry of an os.listdir scan, with the st_ctime the source reads. -/
structure FsEntry where
  name : String
  isDir : Bool
  ctime : Int
deriving DecidableEq, Repr

/-- The downloads-directory part of cleanup_old_files (main.py:155-168):
directories older than maxAge are removed together with their tracker
entry; everything else survives in place.  Returns the surviving entries
and the updated map. -/
def sweep_downloads (now maxAge : Int) :
    List FsEntry → StatusMap → List FsEntry × StatusMap
  | [], m => ([], m)
  | d :: rest, m =>
    if d.isDir ∧ now - d.ctime > maxAge then
      sweep_downloads now maxAge rest (delS m d.name)
    else
      let r := sweep_downloads now maxAge rest m
      (d :: r.1, r.2)

/-- The temp-directory part of cleanup_old_files (main.py:171-180):
plain files older than maxAge are removed. -/
def sweep_temp (now maxAge : Int) (temps : List FsEntry) : List FsEntry :=
  temps.filter (fun f => !((!f.isDir) && decide (now - f.ctime > maxAge)))

/-- Embeds cleanup_old_files (main.py:149-183): one retention sweep over
the downloads directory and the temp directory. -/
def cleanup_old_files (now maxAge : Int) (downloads temps : List FsEntry)
    (m : StatusMap) : List FsEntry × List FsEntry × StatusMap :=
  let r := sweep_downloads now maxAge downloads m
  (r.1, sweep_temp now maxAge temps, r.2)

/-- The completed-record invariant of claim C1: a record in phase
completed carries progress 100 and truthy downloadUrl and filename. -/
def completedOk (s : ConversionStatus) : Prop :=
  s.status = "completed" →
    s.progress = 100 ∧ truthyStr s.download_url = true ∧ truthyStr s.filename = true

instance (s : ConversionStatus) : Decidable (completedOk s) := by
  unfold completedOk; infer_instance

theorem completedOk_of_ne {s : ConversionStatus} (h : s.status ≠ "completed") :
    completedOk s := fun hc => absurd hc h

theorem string_data_ne (s : String) : s ≠ "" ↔ s.data ≠ [] := by
  constructor
  · intro h hd
    exact h (String.ext hd)
  · intro h he
    subst he
    exact h rfl

theorem append_ne_empty_left (s t : String) (h : s ≠ "") : (s ++ t) ≠ "" := by
  rw [string_data_ne] at h ⊢
  rw [String.data_append]
  simp [h]

theorem truthy_some (s : String) (h : s ≠ "") : truthyStr (some s) = true := by
  simp [truthyStr, h]

theorem durl_truthy (fid fn : String) :
    truthyStr (some ("/download/" ++ fid ++ "/" ++ fn)) = true :=
  truthy_some _ (append_ne_empty_left _ _ (append_ne_empty_left _ _
    (append_ne_empty_left _ _ (by decide))))

theorem splitext_append (l : List Char) : (splitext l).1 ++ (splitext l).2 = l := by
  unfold splitext
  cases lastIdxOf '.' l with
  | none => simp
  | some i =>
    by_cases h : (l.take i).any (fun c => !(c == '.')) <;>
      simp [h, List.take_append_drop]

theorem sanitize_data_sub (s : String) :
    ∀ c ∈ (sanitize_filename s).data,
      c ∈ (s.data.filter (fun c => !badChar c)).map (fun c => if c == ' ' then '_' else c) := by
  intro c hc
  unfold sanitize_filename at hc
  by_cases h :
      ((s.data.filter (fun c => !badChar c)).map (fun c => if c == ' ' then '_' else c)).length
        > 200
  · rw [if_pos h] at hc
    show c ∈ _
    rw [← splitext_append
      ((s.data.filter (fun c => !badChar c)).map (fun c => if c == ' ' then '_' else c))]
    rcases List.mem_append.mp hc with h1 | h1
    · exact List.mem_append_left _ (List.mem_of_mem_take h1)
    · exact List.mem_append_right _ h1
  · rw [if_neg h] at hc
    exact hc

theorem sanitize_chars (s : String) :
    ∀ c ∈ (sanitize_filename s).data, badChar c = false ∧ c ≠ ' ' := by
  intro c hc
  have h := sanitize_data_sub s c hc
  rcases List.mem_map.mp h with ⟨c0, hc0, rfl⟩
  have hkeep := (List.mem_filter.mp hc0).2
  by_cases hsp : c0 == ' '
  · simp only [if_pos hsp]
    exact ⟨by decide, by decide⟩
  · simp only [if_neg hsp]
    refine ⟨by simpa using hkeep, ?_⟩
    intro he
    exact hsp (by simp [he])

theorem sanitize_ne_empty (s : String) (c : Char) (hc : c ∈ s.data)
    (hgood : badChar c = false) : sanitize_filename s ≠ "" := by
  rw [string_data_ne]
  have hmem : (if c == ' ' then '_' else c) ∈
      (s.data.filter (fun c => !badChar c)).map (fun c => if c == ' ' then '_' else c) :=
    List.mem_map_of_mem _ (List.mem_filter.mpr ⟨hc, by simp [hgood]⟩)
  unfold sanitize_filename
  by_cases h :
      ((s.data.filter (fun c => !badChar c)).map (fun c => if c == ' ' then '_' else c)).length
        > 200
  · rw [if_pos h]
    intro he
    rcases List.append_eq_nil.mp he with ⟨h1, h2⟩
    rcases List.take_eq_nil_iff.mp h1 with h3 | h3
    · exact absurd h3 (by decide)
    · have := splitext_append
        ((s.data.filter (fun c => !badChar c)).map (fun c => if c == ' ' then '_' else c))
      rw [h3, h2] at this
      rw [← this] at h
      simp at h
  · rw [if_neg h]
    intro he
    have hl : (s.data.filter (fun c => !badChar c)).map (fun c => if c == ' ' then '_' else c)
        = [] := he
    rw [hl] at hmem
    exact absurd hmem (List.not_mem_nil _)

theorem insta_filename_ne_empty (u ts : String) :
    sanitize_filename (u ++ "_instagram_" ++ ts ++ ".mp4") ≠ "" := by
  apply sanitize_ne_empty _ 'm'
  · rw [String.data_append, String.data_append, String.data_append]
    refine List.mem_append_left _ (List.mem_append_left _ (List.mem_append_right _ ?_))
    decide
  · decide

theorem strReplace_ne_empty (s pat rep : String) (hs : s ≠ "") (hr : rep ≠ "") :
    strReplace s pat rep ≠ "" := by
  rw [string_data_ne] at hs hr ⊢
  show replaceFuel pat.data rep.data s.data.length s.data ≠ []
  cases hsd : s.data with
  | nil => exact absurd hsd hs
  | cons c t =>
    simp only [List.length_cons, replaceFuel]
    split
    · simp [hr]
    · simp

theorem foldl_pick_mem (t : List (String × Int)) :
    ∀ f, t.foldl (fun b x => if x.2 > b.2 then x else b) f ∈ f :: t := by
  induction t with
  | nil => intro f; simp
  | cons x t ih =>
    intro f
    simp only [List.foldl_cons]
    rcases List.mem_cons.mp (ih (if x.2 > f.2 then x else f)) with h | h
    · by_cases hx : x.2 > f.2
      · rw [if_pos hx] at h ⊢
        rw [h]
        simp
      · rw [if_neg hx] at h ⊢
        rw [h]
        simp
    · exact List.mem_cons_of_mem _ (List.mem_cons_of_mem _ h)

theorem pickMax_mem (f : String × Int) (t : List (String × Int)) :
    ∃ g ∈ f :: t, pickMax (f :: t) = g.1 := by
  refine ⟨t.foldl (fun b x => if x.2 > b.2 then x else b) f, foldl_pick_mem t f, ?_⟩
  simp [pickMax]

theorem lookup_delS (m : StatusMap) (k : String) : lookupS (delS m k) k = none := by
  induction m with
  | nil => rfl
  | cons p t ih =>
    by_cases h : p.1 == k
    · simpa [delS, List.filter_cons, h] using ih
    · simpa [delS, List.filter_cons, h, lookupS] using ih

theorem lookup_delS_none (m : StatusMap) (k k' : String) (h : lookupS m k = none) :
    lookupS (delS m k') k = none := by
  induction m with
  | nil => rfl
  | cons p t ih =>
    unfold lookupS at h
    by_cases hp : p.1 == k
    · rw [if_pos hp] at h
      cases h
    · rw [if_neg hp] at h
      by_cases hk : p.1 == k'
      · simpa [delS, List.filter_cons, hk] using ih h
      · simpa [delS, List.filter_cons, hk, lookupS, hp] using ih h

theorem sweep_downloads_preserves_none (downloads : List FsEntry) :
    ∀ (now maxAge : Int) (m : StatusMap) (k : String), lookupS m k = none →
      lookupS (sweep_downloads now maxAge downloads m).2 k = none := by
  induction downloads with
  | nil => intro _ _ _ _ h; exact h
  | cons d rest ih =>
    intro now maxAge m k h
    unfold sweep_downloads
    by_cases hd : d.isDir ∧ now - d.ctime > maxAge
    · rw [if_pos hd]
      exact ih now maxAge _ k (lookup_delS_none m k d.name h)
    · rw [if_neg hd]
      exact ih now maxAge m k h

theorem sweep_downloads_deleted (downloads : List FsEntry) :
    ∀ (now maxAge : Int) (m : StatusMap) (d : FsEntry), d ∈ downloads →
      d.isDir → now - d.ctime > maxAge →
      lookupS (sweep_downloads now maxAge downloads m).2 d.name = none := by
  induction downloads with
  | nil => intro _ _ _ _ h; cases h
  | cons e rest ih =>
    intro now maxAge m d hmem hdir hage
    rcases List.mem_cons.mp hmem with rfl | hmem
    · unfold sweep_downloads
      rw [if_pos ⟨hdir, hage⟩]
      exact sweep_downloads_preserves_none rest now maxAge _ _ (lookup_delS m d.name)
    · unfold sweep_downloads
      by_cases he : e.isDir ∧ now - e.ctime > maxAge
      · rw [if_pos he]
        exact ih now maxAge _ d hmem hdir hage
      · rw [if_neg he]
        exact ih now maxAge m d hmem hdir hage

theorem sweep_downloads_filter (downloads : List FsEntry) :
    ∀ (now maxAge : Int) (m : StatusMap),
      (sweep_downloads now maxAge downloads m).1 =
        downloads.filter (fun d => !(d.isDir && decide (now - d.ctime > maxAge))) := by
  induction downloads with
  | nil => intro _ _ _; rfl
  | cons d rest ih =>
    intro now maxAge m
    unfold sweep_downloads
    by_cases hd : d.isDir ∧ now - d.ctime > maxAge
    · rw [if_pos hd]
      rw [ih]
      simp [List.filter_cons, hd.1, hd.2]
    · rw [if_neg hd]
      rcases Decidable.not_and_iff_or_not.mp hd with h | h <;>
        simp [List.filter_cons, h, ih]

/-- The expired form of a record, as produced by the lazy expiry mutations
of main.py:1021-1023. -/
def expiredOf (st : ConversionStatus) : ConversionStatus :=
  { st with
    status := "expired"
    progress := 0
    message := some "File has expired and been deleted" }

/-- C5: GET progress/{jobId} returns the current ProgressRecord snapshot,
fails with 404 exactly when the jobId is not in the tracker map, and when
the record is completed or failed with a truthy download URL while the
backing directory is gone, flips the record to expired (in place, stored
back) before returning it; otherwise the record is returned unchanged. -/
theorem c5_get_progress_contract (m : StatusMap) (dirExists : Bool) (fid : String) :
    (get_progress m dirExists fid = .error 404 ↔ lookupS m fid = none)
    ∧ (∀ st, lookupS m fid = some st →
        ((st.status = "completed" ∨ st.status = "failed") ∧ truthyStr st.download_url = true
            ∧ dirExists = false →
          get_progress m dirExists fid = .ok (expiredOf st, setS m fid (expiredOf st)))
        ∧ (¬((st.status = "completed" ∨ st.status = "failed")
              ∧ truthyStr st.download_url = true ∧ dirExists = false) →
          get_progress m dirExists fid = .ok (st, m))) := by
  cases hl : lookupS m fid with
  | none =>
    have hg : get_progress m dirExists fid = .error 404 := by
      unfold get_progress
      rw [hl]
    refine ⟨by simp [hg, hl], ?_⟩
    intro st hst
    cases hst
  | some st0 =>
    have hbase : get_progress m dirExists fid =
        if ((st0.status == "completed" || st0.status == "failed")
            && truthyStr st0.download_url && !dirExists)
        then .ok (expiredOf st0, setS m fid (expiredOf st0))
        else .ok (st0, m) := by
      unfold get_progress
      rw [hl]
      rfl
    constructor
    · constructor
      · intro h
        rw [hbase] at h
        split at h <;> cases h
      · intro h
        cases h
    · intro st hst
      injection hst with hss
      subst hss
      constructor
      · intro hcond
        obtain ⟨h1, h2, h3⟩ := hcond
        have hb : ((st0.status == "completed" || st0.status == "failed")
            && truthyStr st0.download_url && !dirExists) = true := by
          subst h3
          rcases h1 with h1 | h1 <;> simp [h1, h2]
        rw [hbase, if_pos hb]
      · intro hcond
        have hb : ¬(((st0.status == "completed" || st0.status == "failed")
            && truthyStr st0.download_url && !dirExists) = true) := by
          intro hbt
          apply hcond
          simp only [Bool.and_eq_true, Bool.or_eq_true, beq_iff_eq,
            Bool.not_eq_true'] at hbt
          exact ⟨hbt.1.1, hbt.1.2, hbt.2⟩
        rw [hbase, if_neg hb]

/-- C5 witness: a completed record with a download URL whose directory is
gone flips to expired; an unknown id is a 404. -/
theorem c5_get_progress_contract_witness :
    (lookupS [("j1", ⟨"j1", 100, "completed", some "/download/j1/a.mp4", some "a.mp4",
        some 0, some "m"⟩)] "j1" =
      some ⟨"j1", 100, "completed", some "/download/j1/a.mp4", some "a.mp4", some 0, some "m"⟩)
    ∧ get_progress [("j1", ⟨"j1", 100, "completed", some "/download/j1/a.mp4", some "a.mp4",
        some 0, some "m"⟩)] false "j1" =
      .ok (⟨"j1", 0, "expired", some "/download/j1/a.mp4", some "a.mp4", some 0,
            some "File has expired and been deleted"⟩,
           [("j1", ⟨"j1", 0, "expired", some "/download/j1/a.mp4", some "a.mp4", some 0,
            some "File has expired and been deleted"⟩)])
    ∧ (get_progress [("j1", ⟨"j1", 100, "completed", some "/download/j1/a.mp4", some "a.mp4",
        some 0, some "m"⟩)] false "nope" = .error 404 ↔
       lookupS [("j1", ⟨"j1", 100, "completed", some "/download/j1/a.mp4", some "a.mp4",
        some 0, some "m"⟩)] "nope" = none) := by
  refine ⟨by decide, ?_, (c5_get_progress_contract _ false "nope").1⟩
  have h := ((c5_get_progress_contract
    [("j1", ⟨"j1", 100, "completed", some "/download/j1/a.mp4", some "a.mp4",
      some 0, some "m"⟩)] false "j1").2
    ⟨"j1", 100, "completed", some "/download/j1/a.mp4", some "a.mp4", some 0, some "m"⟩
    (by decide)).1 ⟨Or.inl rfl, by decide, rfl⟩
  exact h

/-- C6: a retention sweep deletes a directory entry (recursively) exactly
when its creation-time age strictly exceeds the configured max age; younger
directories survive in place; for every deleted directory the matching
tracker record is gone and a subsequent progress poll for that job id
returns 404. -/
theorem c6_retention_sweep (now maxAge : Int) (downloads temps : List FsEntry)
    (m : StatusMap) (dex : Bool) :
    (cleanup_old_files now maxAge downloads temps m).1 =
      downloads.filter (fun d => !(d.isDir && decide (now - d.ctime > maxAge)))
    ∧ (∀ d ∈ downloads, d.isDir → now - d.ctime > maxAge →
        lookupS (cleanup_old_files now maxAge downloads temps m).2.2 d.name = none
        ∧ get_progress (cleanup_old_files now maxAge downloads temps m).2.2 dex d.name
            = .error 404)
    ∧ (∀ d ∈ downloads, d.isDir → ¬(now - d.ctime > maxAge) →
        d ∈ (cleanup_old_files now maxAge downloads temps m).1) := by
  refine ⟨sweep_downloads_filter downloads now maxAge m, ?_, ?_⟩
  · intro d hmem hdir hage
    have hnone : lookupS (sweep_downloads now maxAge downloads m).2 d.name = none :=
      sweep_downloads_deleted downloads now maxAge m d hmem hdir hage
    refine ⟨hnone, ?_⟩
    unfold cleanup_old_files get_progress
    rw [hnone]
  · intro d hmem hdir hage
    show d ∈ (sweep_downloads now maxAge downloads m).1
    rw [sweep_downloads_filter downloads now maxAge m]
    refine List.mem_filter.mpr ⟨hmem, ?_⟩
    simp [hage]

/-- C6 witness: with max age 300, a 301-second-old directory is removed
together with its record (poll gives 404) while a 299-second-old one
survives. -/
theorem c6_retention_sweep_witness :
    (cleanup_old_files 1000 300 [⟨"old", true, 699⟩, ⟨"young", true, 701⟩] []
        [("old", pendingRecord "old"), ("young", pendingRecord "young")]).1 =
      [⟨"young", true, 701⟩]
    ∧ lookupS (cleanup_old_files 1000 300 [⟨"old", true, 699⟩, ⟨"young", true, 701⟩] []
        [("old", pendingRecord "old"), ("young", pendingRecord "young")]).2.2 "old" = none
    ∧ get_progress (cleanup_old_files 1000 300 [⟨"old", true, 699⟩, ⟨"young", true, 701⟩] []
        [("old", pendingRecord "old"), ("young", pendingRecord "young")]).2.2 true "old"
        = .error 404
    ∧ (⟨"young", true, 701⟩ : FsEntry) ∈
        (cleanup_old_files 1000 300 [⟨"old", true, 699⟩, ⟨"young", true, 701⟩] []
        [("old", pendingRecord "old"), ("young", pendingRecord "young")]).1 := by
  have h := c6_retention_sweep 1000 300 [⟨"old", true, 699⟩, ⟨"young", true, 701⟩] []
    [("old", pendingRecord "old"), ("young", pendingRecord "young")] true
  have h2 := h.2.1 ⟨"old", true, 699⟩ (by decide) (by decide) (by decide)
  have h3 := h.2.2 ⟨"young", true, 701⟩ (by decide) (by decide) (by decide)
  exact ⟨by decide, h2.1, h2.2, h3⟩

/-- C7: the Platform Resolver is a pure function equal to case-insensitive
first-match substring lookup over the fixed ordered fragment table, failing
with the unsupported-platform error when no fragment matches; URLs equal up
to letter case resolve identically. -/
theorem c7_detect_platform_table (url : String) :
    detect_platform url = tableResolve url
    ∧ (∀ v, lowerStr url = lowerStr v → detect_platform url = detect_platform v) := by
  constructor
  · unfold detect_platform tableResolve platformTable resolveTable
    by_cases h1 : containsStr (lowerStr url) "youtube.com" <;>
      by_cases h2 : containsStr (lowerStr url) "youtu.be" <;>
      by_cases h3 : containsStr (lowerStr url) "instagram.com" <;>
      by_cases h4 : containsStr (lowerStr url) "tiktok.com" <;>
      by_cases h5 : containsStr (lowerStr url) "twitter.com" <;>
      by_cases h6 : containsStr (lowerStr url) "x.com" <;>
      by_cases h7 : containsStr (lowerStr url) "facebook.com" <;>
      by_cases h8 : containsStr (lowerStr url) "fb.watch" <;>
      simp [resolveTable, h1, h2, h3, h4, h5, h6, h7, h8]
  · intro v h
    unfold detect_platform
    rw [h]

/-- C7 witness: concrete resolutions agree with the table, including the
case-insensitive pair. -/
theorem c7_detect_platform_table_witness :
    (lowerStr "https://WWW.Instagram.com/p/x" = lowerStr "https://www.instagram.com/p/x")
    ∧ detect_platform "https://WWW.Instagram.com/p/x" = tableResolve "https://WWW.Instagram.com/p/x"
    ∧ detect_platform "https://WWW.Instagram.com/p/x"
        = detect_platform "https://www.instagram.com/p/x" := by
  refine ⟨by decide, (c7_detect_platform_table _).1, ?_⟩
  exact (c7_detect_platform_table "https://WWW.Instagram.com/p/x").2
    "https://www.instagram.com/p/x" (by decide)

/-- C10: for every input, sanitize_filename yields a string containing none
of the characters removed by the regex (angle brackets, colon, quote,
slash, backslash, pipe, question mark, star) and no space character, so the
result is usable as a single path component. -/
theorem c10_sanitize_filename_safe (s : String) :
    ∀ c ∈ (sanitize_filename s).data, badChar c = false ∧ c ≠ ' ' :=
  sanitize_chars s

/-- C10 witness at a concrete dirty input. -/
theorem c10_sanitize_filename_safe_witness :
    ('a' ∈ (sanitize_filename "a b</x\\:*?\"|>").data)
    ∧ (badChar 'a' = false ∧ 'a' ≠ ' ')
    ∧ sanitize_filename "a b</x\\:*?\"|>" = "a_bx" := by
  refine ⟨by decide, c10_sanitize_filename_safe "a b</x\\:*?\"|>" 'a' (by decide), by decide⟩

theorem selectLoop_eq_find (qn : Int) (versions : List VideoVersion) :
    selectLoop qn versions =
      (versions.find? (fun v => decide (v.height ≤ qn + 100))).map (·.url) := by
  induction versions with
  | nil => rfl
  | cons v rest ih =>
    unfold selectLoop
    by_cases h : v.height ≤ qn + 100
    · rw [if_pos h, List.find?_cons_of_pos _ (by simpa using h)]
      rfl
    · rw [if_neg h, List.find?_cons_of_neg _ (by simpa using h), ih]

/-- C8 counterexample: the selection loop takes the first listed version
whose height is at most requested+100, so requesting 480p from versions
listed as 360p, 480p, 720p selects the 360p URL instead of the exact 480p
match, and requesting 480p from versions listed as 540p, 480p selects a
height above the request although an at-or-below height exists. -/
theorem c8_counterexample_first_listed_wins :
    select_video_url [⟨360, "u360"⟩, ⟨480, "u480"⟩, ⟨720, "u720"⟩] (some "480p") = .ok "u360"
    ∧ select_video_url [⟨360, "u360"⟩, ⟨480, "u480"⟩, ⟨720, "u720"⟩] (some "480p") ≠ .ok "u480"
    ∧ select_video_url [⟨540, "u540"⟩, ⟨480, "u480"⟩] (some "480p") = .ok "u540" := by
  decide

/-- C8 amended: with a parseable requested quality, the instagrapi
selection returns the URL of the first version in listed order whose
height is at most the requested height plus 100, defaulting to the first
listed version when none qualifies; any version chosen by the qualifying
search is a listed version of height at most requested+100 (but it is not
in general the closest at-or-below height, nor an exact match). -/
theorem c8_amended_first_qualifying (versions : List VideoVersion) (q : String) (qn : Int)
    (hqn : quality_num q = some qn) :
    select_video_url versions (some q) =
      .ok (((versions.find? (fun v => decide (v.height ≤ qn + 100))).map (·.url)).getD
            (versions.headD ⟨0, ""⟩).url)
    ∧ (∀ v, versions.find? (fun v => decide (v.height ≤ qn + 100)) = some v →
        v ∈ versions ∧ v.height ≤ qn + 100) := by
  have hq : ¬((q == "") = true) := by
    intro h
    have hq' : q = "" := by simpa using h
    rw [hq'] at hqn
    have himp : (none : Option Int) = some qn := hqn
    cases himp
  constructor
  · have hred : select_video_url versions (some q) =
        if (q == "") = true then Except.ok (versions.headD ⟨0, ""⟩).url
        else
          match quality_num q with
          | none => Except.error ("invalid literal for int() with base 10: " ++ strReplace q "p" "")
          | some n => Except.ok ((selectLoop n versions).getD (versions.headD ⟨0, ""⟩).url) := rfl
    rw [hred, if_neg hq, hqn]
    show Except.ok ((selectLoop qn versions).getD (versions.headD ⟨0, ""⟩).url) = _
    rw [selectLoop_eq_find]
  · intro v hv
    exact ⟨List.mem_of_find?_eq_some hv, by simpa using List.find?_some hv⟩

/-- C8 amended witness: requesting 500p from versions listed best-first as
720p, 480p, 360p picks 480p (the first qualifying under 600). -/
theorem c8_amended_first_qualifying_witness :
    quality_num "500p" = some 500
    ∧ select_video_url ([⟨720, "u720"⟩, ⟨480, "u480"⟩, ⟨360, "u360"⟩] : List VideoVersion)
        (some "500p") = .ok "u480" := by
  have h := (c8_amended_first_qualifying
    ([⟨720, "u720"⟩, ⟨480, "u480"⟩, ⟨360, "u360"⟩] : List VideoVersion) "500p" 500
    (by decide)).1
  refine ⟨by decide, ?_⟩
  rw [h]
  decide

/-- C3 counterexample: an Instagram job whose three strategies all fail
ends failed with progress still 10 (the last in-flight value reached by the
fallback strategy), not 0 — the chain's failure transition
(main.py:608-609) mutates only status and message. -/
theorem c3_counterexample_progress_not_reset :
    ((instagram_download "https://example.com/" "job1" "mp4" none
        ⟨false, .error "x", "t", 200, 0, [], false, false⟩
        ⟨false, .error "x", [], .ok (), []⟩
        ⟨500, "t", 500, false, 200⟩).2.1.status = "failed")
    ∧ ((instagram_download "https://example.com/" "job1" "mp4" none
        ⟨false, .error "x", "t", 200, 0, [], false, false⟩
        ⟨false, .error "x", [], .ok (), []⟩
        ⟨500, "t", 500, false, 200⟩).2.1.progress = 10)
    ∧ ¬((instagram_download "https://example.com/" "job1" "mp4" none
        ⟨false, .error "x", "t", 200, 0, [], false, false⟩
        ⟨false, .error "x", [], .ok (), []⟩
        ⟨500, "t", 500, false, 200⟩).2.1.progress = 0) := by
  decide

/-- C3 amended: the progress-reset-on-failure contract holds only for the
YouTube downloader: when yt-dlp is available and the download fails, the
record is replaced whole with progress 0, status failed and no URL
(main.py:414-422); the Instagram chain's exhaustion transition
(main.py:606-610) sets status failed and the composite message but leaves
progress (and every other field) at its last value. -/
theorem c3_amended_reset_only_youtube (fid fmt : String) (q : Option String)
    (o : YTOracle) (s : ConversionStatus) (e : String) (l : Option String)
    (st : ConversionStatus) :
    (o.available = true → (youtube_download fid fmt q o s).2.2 = .error e →
      (youtube_download fid fmt q o s).2.1.progress = 0
      ∧ (youtube_download fid fmt q o s).2.1.status = "failed"
      ∧ (youtube_download fid fmt q o s).2.1.download_url = none)
    ∧ ((runChain st [] l).2.1.status = "failed"
       ∧ (runChain st [] l).2.1.progress = st.progress
       ∧ (runChain st [] l).2.1.download_url = st.download_url
       ∧ (runChain st [] l).2.1.filename = st.filename) := by
  constructor
  · intro hav herr
    obtain ⟨av, ir, he, dr, fl, fr, ae⟩ := o
    simp only at hav
    subst hav
    cases ir with
    | error e' => simp [youtube_download, ytFailRecord]
    | ok t =>
      cases dr with
      | error e' => simp [youtube_download, ytFailRecord]
      | ok u =>
        by_cases hf : fl.isEmpty
        · simp [youtube_download, hf, ytFailRecord]
        · simp [youtube_download, hf] at herr
  · exact ⟨rfl, rfl, rfl, rfl⟩

/-- C3 amended witness: a concrete failing YouTube download ends with
progress 0; a concrete chain exhaustion keeps the prior progress value. -/
theorem c3_amended_reset_only_youtube_witness :
    ((⟨true, .error "boom", [], .ok (), [], false, false⟩ : YTOracle).available = true)
    ∧ ((youtube_download "j" "mp4" none ⟨true, .error "boom", [], .ok (), [], false, false⟩
        (pendingRecord "j")).2.2 = .error "Download failed: boom")
    ∧ ((youtube_download "j" "mp4" none ⟨true, .error "boom", [], .ok (), [], false, false⟩
        (pendingRecord "j")).2.1.progress = 0
       ∧ (youtube_download "j" "mp4" none ⟨true, .error "boom", [], .ok (), [], false, false⟩
        (pendingRecord "j")).2.1.status = "failed"
       ∧ (youtube_download "j" "mp4" none ⟨true, .error "boom", [], .ok (), [], false, false⟩
        (pendingRecord "j")).2.1.download_url = none)
    ∧ (runChain ⟨"j", 42, "initializing", none, none, some 0, none⟩ [] none).2.1.progress
        = 42 := by
  refine ⟨rfl, by decide, ?_, ?_⟩
  · exact (c3_amended_reset_only_youtube "j" "mp4" none
      ⟨true, .error "boom", [], .ok (), [], false, false⟩ (pendingRecord "j")
      "Download failed: boom" none (pendingRecord "j")).1 rfl (by decide)
  · exact (c3_amended_reset_only_youtube "j" "mp4" none
      ⟨true, .error "boom", [], .ok (), [], false, false⟩ (pendingRecord "j")
      "Download failed: boom" none ⟨"j", 42, "initializing", none, none, some 0, none⟩).2.2.1

/-- C9 (code bug in the source): with instagrapi and yt-dlp unavailable and
the requests fallback reaching its success path while the oEmbed call
returned non-200, the fallback publishes the completed record
(main.py:857-865) and then raises on the unbound local variable title
(main.py:871), so the chain marks the already-completed record failed
(main.py:608): the final record is failed with progress 100 and a set
download URL and filename, and a subsequent progress poll with the backing
directory gone flips this failed record to expired — contradicting the
claimed invariant that failed records have no URL. -/
theorem c9_failed_record_keeps_url :
    ((instagram_download "https://instagram.com/p/ABC/" "job1" "mp4" none
        ⟨false, .error "x", "t", 200, 0, [], false, false⟩
        ⟨false, .error "x", [], .ok (), []⟩
        ⟨500, "t", 200, true, 200⟩).2.1.status = "failed")
    ∧ ((instagram_download "https://instagram.com/p/ABC/" "job1" "mp4" none
        ⟨false, .error "x", "t", 200, 0, [], false, false⟩
        ⟨false, .error "x", [], .ok (), []⟩
        ⟨500, "t", 200, true, 200⟩).2.1.download_url = some "/download/job1/instagram_ABC.mp4")
    ∧ ((instagram_download "https://instagram.com/p/ABC/" "job1" "mp4" none
        ⟨false, .error "x", "t", 200, 0, [], false, false⟩
        ⟨false, .error "x", [], .ok (), []⟩
        ⟨500, "t", 200, true, 200⟩).2.1.filename = some "instagram_ABC.mp4")
    ∧ ((instagram_download "https://instagram.com/p/ABC/" "job1" "mp4" none
        ⟨false, .error "x", "t", 200, 0, [], false, false⟩
        ⟨false, .error "x", [], .ok (), []⟩
        ⟨500, "t", 200, true, 200⟩).2.1.progress = 100)
    ∧ ((get_progress [("job1", (instagram_download "https://instagram.com/p/ABC/" "job1" "mp4"
          none ⟨false, .error "x", "t", 200, 0, [], false, false⟩
          ⟨false, .error "x", [], .ok (), []⟩
          ⟨500, "t", 200, true, 200⟩).2.1)] false "job1").map (fun p => p.1.status)
        = .ok "expired") := by
  decide

theorem runChain_cons_ok (st : ConversionStatus) (nm : String) (m : Attempt)
    (rest : List (String × Attempt)) (l : Option String) (r : DlResult)
    (h : (m { st with message := some ("Trying " ++ nm ++ " method...") }).2.2 = .ok r) :
    (runChain st ((nm, m) :: rest) l).2.2.1 = []
    ∧ (runChain st ((nm, m) :: rest) l).2.2.2 = .ok r := by
  simp only [runChain]
  rw [h]
  exact ⟨rfl, rfl⟩

theorem runChain_cons_error (st : ConversionStatus) (nm : String) (m : Attempt)
    (rest : List (String × Attempt)) (l : Option String) (e : String)
    (h : (m { st with message := some ("Trying " ++ nm ++ " method...") }).2.2 = .error e) :
    (runChain st ((nm, m) :: rest) l).2.2.1 =
      e :: (runChain (m { st with message := some ("Trying " ++ nm ++ " method...") }).2.1
            rest (some e)).2.2.1
    ∧ (runChain st ((nm, m) :: rest) l).2.2.2 =
      (runChain (m { st with message := some ("Trying " ++ nm ++ " method...") }).2.1
        rest (some e)).2.2.2
    ∧ (runChain st ((nm, m) :: rest) l).2.1 =
      (runChain (m { st with message := some ("Trying " ++ nm ++ " method...") }).2.1
        rest (some e)).2.1 := by
  simp only [runChain]
  rw [h]
  exact ⟨rfl, rfl, rfl⟩

theorem runChain_prefix_errors (pre : List (String × Attempt)) (es : List String)
    (h : List.Forall₂ (fun p e => ∀ s, (p.2 s).2.2 = Except.error e) pre es) :
    ∀ (st : ConversionStatus) (l : Option String) (nm : String) (m : Attempt) (r : DlResult),
      (∀ s, (m s).2.2 = Except.ok r) →
      (runChain st (pre ++ [(nm, m)]) l).2.2.1 = es
      ∧ (runChain st (pre ++ [(nm, m)]) l).2.2.2 = Except.ok r := by
  induction h with
  | nil =>
    intro st l nm m r hm
    rw [List.nil_append]
    exact runChain_cons_ok st nm m [] l r (hm _)
  | @cons a b l1 l2 h1 h2 ih =>
    intro st l nm m r hm
    obtain ⟨na, ma⟩ := a
    rw [List.cons_append]
    obtain ⟨he1, he2, he3⟩ := runChain_cons_error st na ma (l1 ++ [(nm, m)]) l b (h1 _)
    obtain ⟨ih1, ih2⟩ := ih _ (some b) nm m r hm
    exact ⟨by rw [he1, ih1], by rw [he2, ih2]⟩

theorem runChain_all_fail (ms : List (String × Attempt)) (es : List String)
    (h : List.Forall₂ (fun p e => ∀ s, (p.2 s).2.2 = Except.error e) ms es) :
    ∀ (st : ConversionStatus) (l : Option String),
      (runChain st ms l).2.2.2 =
        Except.error ("All download methods failed. Last error: " ++ es.getLastD (errStr l))
      ∧ (runChain st ms l).2.1.status = "failed"
      ∧ (runChain st ms l).2.1.message =
        some ("All download methods failed. Last error: " ++ es.getLastD (errStr l))
      ∧ (runChain st ms l).2.2.1 = es := by
  induction h with
  | nil => intro st l; exact ⟨rfl, rfl, rfl, rfl⟩
  | @cons a b l1 l2 h1 h2 ih =>
    intro st l
    obtain ⟨na, ma⟩ := a
    obtain ⟨he1, he2, he3⟩ := runChain_cons_error st na ma l1 l b (h1 _)
    obtain ⟨ih1, ih2, ih3, ih4⟩ := ih _ (some b)
    rw [he1, he2, he3, List.getLastD_cons]
    exact ⟨ih1, ih2, ih3, by rw [ih4]⟩

/-- C2: strategies are tried strictly in configured order with failures
caught and accumulated, never propagated early: when the first N-1
strategies of a chain fail and the last succeeds, the chain returns the
success and the list of caught-and-logged errors is exactly the N-1
failures in order; when all strategies fail, the chain ends with the
record failed and a composite message referencing the final strategy's
error. -/
theorem c2_strategy_chain_contract (st : ConversionStatus)
    (pre ms : List (String × Attempt)) (es : List String) (nm : String) (m : Attempt)
    (r : DlResult) :
    (List.Forall₂ (fun p e => ∀ s, (p.2 s).2.2 = Except.error e) pre es →
      (∀ s, (m s).2.2 = Except.ok r) →
      (runChain st (pre ++ [(nm, m)]) none).2.2.1 = es
      ∧ (runChain st (pre ++ [(nm, m)]) none).2.2.2 = Except.ok r
      ∧ es.length = pre.length)
    ∧ (List.Forall₂ (fun p e => ∀ s, (p.2 s).2.2 = Except.error e) ms es →
      (runChain st ms none).2.2.2 =
        Except.error ("All download methods failed. Last error: " ++ es.getLastD "None")
      ∧ (runChain st ms none).2.1.status = "failed"
      ∧ (runChain st ms none).2.1.message =
        some ("All download methods failed. Last error: " ++ es.getLastD "None")
      ∧ (runChain st ms none).2.2.1 = es) := by
  constructor
  · intro hpre hm
    obtain ⟨h1, h2⟩ := runChain_prefix_errors pre es hpre st none nm m r hm
    exact ⟨h1, h2, (List.Forall₂.length_eq hpre).symm⟩
  · intro hms
    exact runChain_all_fail ms es hms st none

/-- Concrete chain configuration for the C2 witness: instagrapi and yt-dlp
unavailable, requests fallback succeeding. -/
def o1offline : InstaOracle := ⟨false, .error "x", "t", 200, 0, [], false, false⟩

def o2offline : YtdlpOracle := ⟨false, .error "x", [], .ok (), []⟩

def o3success : FallbackOracle := ⟨200, "mytitle", 200, true, 200⟩

def chainPre : List (String × Attempt) :=
  [("instagrapi", download_with_instagrapi "job1" "mp4" none o1offline),
   ("ytdlp", download_with_ytdlp "job1" "mp4" none o2offline)]

def fbAttempt : Attempt :=
  download_with_requests_fallback "https://instagram.com/p/ABC/" "job1" "mp4" none o3success

def fbResult : DlResult :=
  ⟨"job1", "instagram_ABC.mp4", "/download/job1/instagram_ABC.mp4", "mytitle", "mp4", none,
   "instagram"⟩

/-- C2 witness: in the concrete chain the two failures are caught in order
(exactly N-1 = 2 entries) and the final strategy's success is returned;
the two failing strategies alone end the job failed with a message
referencing the last error. -/
theorem c2_strategy_chain_contract_witness :
    List.Forall₂ (fun p e => ∀ s, (p.2 s).2.2 = Except.error e) chainPre
      ["instagrapi not available", "yt-dlp not available"]
    ∧ (∀ s, (fbAttempt s).2.2 = Except.ok fbResult)
    ∧ (runChain (pendingRecord "job1") (chainPre ++ [("requests_fallback", fbAttempt)])
        none).2.2.1 = ["instagrapi not available", "yt-dlp not available"]
    ∧ (runChain (pendingRecord "job1") (chainPre ++ [("requests_fallback", fbAttempt)])
        none).2.2.2 = Except.ok fbResult
    ∧ (["instagrapi not available", "yt-dlp not available"] : List String).length
        = chainPre.length
    ∧ (runChain (pendingRecord "job1") chainPre none).2.1.status = "failed"
    ∧ (runChain (pendingRecord "job1") chainPre none).2.1.message =
        some "All download methods failed. Last error: yt-dlp not available" := by
  have hf : List.Forall₂ (fun p e => ∀ s, (p.2 s).2.2 = Except.error e) chainPre
      ["instagrapi not available", "yt-dlp not available"] :=
    List.Forall₂.cons (fun s => rfl) (List.Forall₂.cons (fun s => rfl) List.Forall₂.nil)
  have hm : ∀ s, (fbAttempt s).2.2 = Except.ok fbResult := fun s => rfl
  have ha := (c2_strategy_chain_contract (pendingRecord "job1") chainPre chainPre
    ["instagrapi not available", "yt-dlp not available"] "requests_fallback" fbAttempt
    fbResult).1 hf hm
  have hb := (c2_strategy_chain_contract (pendingRecord "job1") chainPre chainPre
    ["instagrapi not available", "yt-dlp not available"] "requests_fallback" fbAttempt
    fbResult).2 hf
  refine ⟨hf, hm, ha.1, ha.2.1, ha.2.2, hb.2.1, ?_⟩
  rw [hb.2.2.1]
  rfl

theorem hookPercent_ub (dl t : Int) : hookPercent dl t ≤ 80 := min_le_left _ _

theorem hookPercent_lb (dl t : Int) (ht : 0 < t) (hd : 0 ≤ dl) : 20 ≤ hookPercent dl t := by
  unfold hookPercent
  have h1 : 0 ≤ (100 * dl) / t := Int.ediv_nonneg (by linarith) (le_of_lt ht)
  have h2 : 0 ≤ 3 * ((100 * dl) / t) / 5 := Int.ediv_nonneg (by linarith) (by norm_num)
  refine le_min (by norm_num) (by linarith)

theorem hookPercent_mono (t : Int) (ht : 0 < t) {a b : Int} (hab : a ≤ b) :
    hookPercent a t ≤ hookPercent b t := by
  unfold hookPercent
  have h1 : (100 * a) / t ≤ (100 * b) / t :=
    Int.ediv_le_ediv ht (by linarith)
  have h2 : 3 * ((100 * a) / t) / 5 ≤ 3 * ((100 * b) / t) / 5 :=
    Int.ediv_le_ediv (by norm_num) (by linarith)
  exact min_le_min (le_refl _) (by linarith)

theorem chunkLoopAux_chain (chunks : List Nat) :
    ∀ (total d : Int) (s : ConversionStatus) (suf : List Int),
      0 ≤ d →
      (0 < total → s.progress ≤ min 70 (30 + (40 * d) / total)) →
      s.progress ≤ 70 →
      List.Chain' (· ≤ ·) suf →
      (∀ y ∈ suf.head?, (70 : Int) ≤ y) →
      List.Chain' (· ≤ ·)
        ((s.progress :: (chunkLoopAux total d chunks s).1.map (·.progress)) ++ suf) := by
  induction chunks with
  | nil =>
    intro total d s suf _ _ h70 hsuf hhead
    simp only [chunkLoopAux, List.map_nil, List.cons_append, List.nil_append]
    exact List.chain'_cons'.mpr ⟨fun y hy => le_trans h70 (hhead y hy), hsuf⟩
  | cons c rest ih =>
    intro total d s suf hd hle h70 hsuf hhead
    unfold chunkLoopAux
    by_cases ht : (0 : Int) < total
    · rw [if_pos ht]
      have hdc : (0 : Int) ≤ d + (c : Int) := by positivity
      have hmono : (40 * d) / total ≤ (40 * (d + (c : Int))) / total := by
        refine Int.ediv_le_ediv ht ?_
        have hc : (0 : Int) ≤ (c : Int) := Int.natCast_nonneg c
        linarith
      have hstep : s.progress ≤ min 70 (30 + (40 * (d + (c : Int))) / total) :=
        le_trans (hle ht) (min_le_min (le_refl _) (by linarith))
      have hrec := ih total (d + (c : Int))
        { s with progress := min 70 (30 + (40 * (d + (c : Int))) / total) } suf hdc
        (fun _ => le_refl _) (min_le_left _ _) hsuf hhead
      simp only [List.map_cons, List.cons_append] at hrec ⊢
      exact List.chain'_cons.mpr ⟨hstep, hrec⟩
    · rw [if_neg ht]
      exact ih total (d + (c : Int)) s suf (by positivity) (fun h => absurd h ht) h70 hsuf hhead

theorem run_ytdlp_hooks_chain (evs : List (Int × Int)) :
    ∀ (t dprev : Int) (s : ConversionStatus) (suf : List Int),
      0 < t →
      (∀ e ∈ evs, e.2 = t ∧ 0 ≤ e.1) →
      List.Chain' (· ≤ ·) (dprev :: evs.map (·.1)) →
      0 ≤ dprev →
      s.progress ≤ hookPercent dprev t →
      List.Chain' (· ≤ ·) suf →
      (∀ y ∈ suf.head?, (80 : Int) ≤ y) →
      List.Chain' (· ≤ ·)
        ((s.progress :: (run_ytdlp_hooks evs s).1.map (·.progress)) ++ suf) := by
  induction evs with
  | nil =>
    intro t dprev s suf ht _ _ _ hsp hsuf hhead
    simp only [run_ytdlp_hooks, List.map_nil, List.cons_append, List.nil_append]
    exact List.chain'_cons'.mpr
      ⟨fun y hy => le_trans (hsp.trans (hookPercent_ub _ _)) (hhead y hy), hsuf⟩
  | cons ev rest ih =>
    intro t dprev s suf ht hall hchain hd0 hsp hsuf hhead
    obtain ⟨het, hed⟩ := hall ev (List.mem_cons_self _ _)
    simp only [List.map_cons] at hchain
    obtain ⟨hde, hchain'⟩ := List.chain'_cons.mp hchain
    unfold run_ytdlp_hooks ytdlp_hook_step
    rw [if_pos (show (0 : Int) < ev.2 from het ▸ ht)]
    have hmono : s.progress ≤ hookPercent ev.1 ev.2 := by
      rw [het]
      exact hsp.trans (hookPercent_mono t ht hde)
    have hrec := ih t ev.1 { s with progress := hookPercent ev.1 ev.2 } suf ht
      (fun e he => hall e (List.mem_cons_of_mem _ he)) hchain' hed
      (by rw [het]) hsuf hhead
    simp only [List.map_cons, List.cons_append] at hrec ⊢
    exact List.chain'_cons.mpr ⟨hmono, hrec⟩

theorem hookPercent_zero (t : Int) : hookPercent 0 t = 20 := by
  unfold hookPercent
  rw [mul_zero, Int.zero_ediv, mul_zero, Int.zero_ediv, add_zero]
  exact min_eq_right (by norm_num)

theorem instagrapi_trace_monotone (fid fmt : String) (q : Option String) (o : InstaOracle)
    (s : ConversionStatus) :
    List.Chain' (· ≤ ·) ((download_with_instagrapi fid fmt q o s).1.map (·.progress)) := by
  obtain ⟨ca, mr, ts, hst, tot, ch, fr, ae⟩ := o
  cases ca with
  | false => simp [download_with_instagrapi]
  | true =>
    cases mr with
    | error e => simp [download_with_instagrapi]
    | ok mi =>
      obtain ⟨mt, vv, un⟩ := mi
      by_cases hmt : mt ≠ 2
      · simp [download_with_instagrapi, hmt]
      · have hmt2 : mt = 2 := not_ne_iff.mp hmt
        subst hmt2
        cases vv with
        | nil => simp [download_with_instagrapi]
        | cons v vvs =>
          cases hsel : select_video_url (v :: vvs) q with
          | error e => simp [download_with_instagrapi, hsel]
          | ok vurl =>
            by_cases hhttp : hst ≠ 200
            · simp [download_with_instagrapi, hsel, hhttp]
            · have h200 : hst = 200 := not_ne_iff.mp hhttp
              subst h200
              have hchunk := fun (suf : List Int) (hsuf : List.Chain' (· ≤ ·) suf)
                  (hhead : ∀ y ∈ suf.head?, (70 : Int) ≤ y) =>
                chunkLoopAux_chain ch tot 0
                  { { { { s with progress := 10 } with
                        message := some "Fetching Instagram video info..." } with
                      progress := 30 } with message := some "Downloading video..." }
                  suf (le_refl 0)
                  (by
                    intro ht
                    show (30 : Int) ≤ min 70 (30 + (40 * 0) / tot)
                    rw [mul_zero, Int.zero_ediv, add_zero]
                    exact le_min (by norm_num) (le_refl _))
                  (by show (30 : Int) ≤ 70; norm_num)
                  hsuf hhead
              have hsuf4 : List.Chain' (· ≤ ·) ([70, 70, 70, 100] : List Int) := by
                refine List.chain'_cons.mpr ⟨le_refl _, ?_⟩
                refine List.chain'_cons.mpr ⟨le_refl _, ?_⟩
                exact List.chain'_cons.mpr ⟨by norm_num, List.chain'_singleton _⟩
              have hsuf2 : List.Chain' (· ≤ ·) ([70, 100] : List Int) :=
                List.chain'_cons.mpr ⟨by norm_num, List.chain'_singleton _⟩
              have hhead4 : ∀ y ∈ ([70, 70, 70, 100] : List Int).head?, (70 : Int) ≤ y := by
                intro y hy
                simp at hy
                omega
              have hhead2 : ∀ y ∈ ([70, 100] : List Int).head?, (70 : Int) ≤ y := by
                intro y hy
                simp at hy
                omega
              simp only [download_with_instagrapi]
              rw [hsel]
              by_cases hmp3 : (fmt == "mp3") = true
              · rw [if_pos hmp3]
                cases fr with
                | true =>
                  simp
                  exact hchunk [70, 70, 70, 100] hsuf4 hhead4
                | false =>
                  cases ae with
                  | true =>
                    simp
                    exact hchunk [70, 70, 70, 100] hsuf4 hhead4
                  | false =>
                    simp
                    exact hchunk [70, 70, 70, 100] hsuf4 hhead4
              · rw [if_neg hmp3]
                simp
                exact hchunk [70, 100] hsuf2 hhead2

theorem ytdlp_trace_monotone (fid fmt : String) (q : Option String) (o : YtdlpOracle)
    (s : ConversionStatus) (t : Int) (ht : 0 < t)
    (hall : ∀ e ∈ o.hookEvents, e.2 = t ∧ 0 ≤ e.1)
    (hchain : List.Chain' (· ≤ ·) ((0 : Int) :: o.hookEvents.map (·.1))) :
    List.Chain' (· ≤ ·) ((download_with_ytdlp fid fmt q o s).1.map (·.progress)) := by
  obtain ⟨av, ir, evs, dr, fl⟩ := o
  simp only at hall hchain
  cases av with
  | false => simp [download_with_ytdlp]
  | true =>
    cases ir with
    | error e => simp [download_with_ytdlp]
    | ok rawTitle =>
      have hhook := fun (suf : List Int) (hsuf : List.Chain' (· ≤ ·) suf)
          (hhead : ∀ y ∈ suf.head?, (80 : Int) ≤ y) =>
        run_ytdlp_hooks_chain evs t 0
          { { { { s with progress := 10 } with
                message := some "Using yt-dlp for Instagram download..." } with
              progress := 20 } with status := "downloading" }
          suf ht hall hchain (le_refl 0)
          (by rw [hookPercent_zero])
          hsuf hhead
      cases dr with
      | error e =>
        have h := hhook [] List.chain'_nil (by intro y hy; cases hy)
        rw [List.append_nil] at h
        simp [download_with_ytdlp]
        exact h
      | ok u =>
        cases fl with
        | nil =>
          have h := hhook [] List.chain'_nil (by intro y hy; cases hy)
          rw [List.append_nil] at h
          simp [download_with_ytdlp]
          exact h
        | cons f fs =>
          have h := hhook [100] (List.chain'_singleton _)
            (by intro y hy; simp at hy; omega)
          simp [download_with_ytdlp]
          exact h

theorem fallback_trace_monotone (url fid fmt : String) (q : Option String)
    (o : FallbackOracle) (s : ConversionStatus) :
    List.Chain' (· ≤ ·)
      ((download_with_requests_fallback url fid fmt q o s).1.map (·.progress)) := by
  obtain ⟨oe, ot, ap, hv, vs⟩ := o
  unfold download_with_requests_fallback
  cases hsc : extract_instagram_shortcode url with
  | none => simp
  | some sc =>
    by_cases hapi : (ap = 200 ∧ hv = true)
    · by_cases hoe : oe = 200 <;> simp [hapi, hoe]
    · simp [hapi]

theorem chunkLoopAux_fields (chunks : List Nat) :
    ∀ (total d : Int) (s : ConversionStatus),
      (∀ x ∈ (chunkLoopAux total d chunks s).1,
        x.status = s.status ∧ x.download_url = s.download_url ∧ x.filename = s.filename)
      ∧ (chunkLoopAux total d chunks s).2.status = s.status
      ∧ (chunkLoopAux total d chunks s).2.download_url = s.download_url
      ∧ (chunkLoopAux total d chunks s).2.filename = s.filename := by
  induction chunks with
  | nil =>
    intro total d s
    exact ⟨fun x hx => absurd hx (List.not_mem_nil x), rfl, rfl, rfl⟩
  | cons c rest ih =>
    intro total d s
    unfold chunkLoopAux
    by_cases ht : (0 : Int) < total
    · rw [if_pos ht]
      obtain ⟨h1, h2, h3, h4⟩ := ih total (d + (c : Int))
        { s with progress := min 70 (30 + (40 * (d + (c : Int))) / total) }
      refine ⟨?_, h2, h3, h4⟩
      intro x hx
      rcases List.mem_cons.mp hx with rfl | hx
      · exact ⟨rfl, rfl, rfl⟩
      · exact h1 x hx
    · rw [if_neg ht]
      exact ih total (d + (c : Int)) s

theorem run_ytdlp_hooks_fields (evs : List (Int × Int)) :
    ∀ (s : ConversionStatus),
      (∀ x ∈ (run_ytdlp_hooks evs s).1,
        x.status = s.status ∧ x.download_url = s.download_url ∧ x.filename = s.filename)
      ∧ (run_ytdlp_hooks evs s).2.status = s.status
      ∧ (run_ytdlp_hooks evs s).2.download_url = s.download_url
      ∧ (run_ytdlp_hooks evs s).2.filename = s.filename := by
  induction evs with
  | nil =>
    intro s
    exact ⟨fun x hx => absurd hx (List.not_mem_nil x), rfl, rfl, rfl⟩
  | cons ev rest ih =>
    intro s
    unfold run_ytdlp_hooks ytdlp_hook_step
    by_cases ht : (0 : Int) < ev.2
    · rw [if_pos ht]
      obtain ⟨h1, h2, h3, h4⟩ := ih { s with progress := hookPercent ev.1 ev.2 }
      refine ⟨?_, h2, h3, h4⟩
      intro x hx
      simp only [List.cons_append, List.nil_append] at hx
      rcases List.mem_cons.mp hx with rfl | hx
      · exact ⟨rfl, rfl, rfl⟩
      · exact h1 x hx
    · rw [if_neg ht]
      obtain ⟨h1, h2, h3, h4⟩ := ih s
      refine ⟨?_, h2, h3, h4⟩
      intro x hx
      simp only [List.nil_append] at hx
      exact h1 x hx

theorem run_yt_hooks_fields (evs : List YTHookEvent) :
    ∀ (s : ConversionStatus),
      (∀ x ∈ (run_yt_hooks evs s).1,
        (x.status = s.status ∨ x.status = "finalizing")
        ∧ x.download_url = s.download_url ∧ x.filename = s.filename)
      ∧ ((run_yt_hooks evs s).2.status = s.status ∨ (run_yt_hooks evs s).2.status = "finalizing")
      ∧ (run_yt_hooks evs s).2.download_url = s.download_url
      ∧ (run_yt_hooks evs s).2.filename = s.filename := by
  induction evs with
  | nil =>
    intro s
    exact ⟨fun x hx => absurd hx (List.not_mem_nil x), Or.inl rfl, rfl, rfl⟩
  | cons ev rest ih =>
    intro s
    unfold run_yt_hooks
    have hstep : ∀ x ∈ (yt_hook_step ev s).1,
        (x.status = s.status ∨ x.status = "finalizing")
        ∧ x.download_url = s.download_url ∧ x.filename = s.filename := by
      intro x hx
      cases ev with
      | downloading dl tb te =>
        unfold yt_hook_step at hx
        rcases tb with _ | t
        · rcases te with _ | t'
          · exact absurd hx (List.not_mem_nil x)
          · dsimp only at hx
            split at hx
            · rcases List.mem_singleton.mp hx with rfl
              exact ⟨Or.inl rfl, rfl, rfl⟩
            · exact absurd hx (List.not_mem_nil x)
        · rcases te with _ | t'
          · dsimp only at hx
            split at hx
            · rcases List.mem_singleton.mp hx with rfl
              exact ⟨Or.inl rfl, rfl, rfl⟩
            · exact absurd hx (List.not_mem_nil x)
          · dsimp only at hx
            split at hx
            · rcases List.mem_singleton.mp hx with rfl
              exact ⟨Or.inl rfl, rfl, rfl⟩
            · split at hx
              · rcases List.mem_singleton.mp hx with rfl
                exact ⟨Or.inl rfl, rfl, rfl⟩
              · exact absurd hx (List.not_mem_nil x)
      | finished =>
        unfold yt_hook_step at hx
        rcases List.mem_cons.mp hx with rfl | hx
        · exact ⟨Or.inl rfl, rfl, rfl⟩
        · rcases List.mem_cons.mp hx with rfl | hx
          · exact ⟨Or.inr rfl, rfl, rfl⟩
          · rcases List.mem_singleton.mp hx with rfl
            exact ⟨Or.inr rfl, rfl, rfl⟩
    have hstep2 : ((yt_hook_step ev s).2.status = s.status
        ∨ (yt_hook_step ev s).2.status = "finalizing")
        ∧ (yt_hook_step ev s).2.download_url = s.download_url
        ∧ (yt_hook_step ev s).2.filename = s.filename := by
      cases ev with
      | downloading dl tb te =>
        unfold yt_hook_step
        rcases tb with _ | t
        · rcases te with _ | t'
          · exact ⟨Or.inl rfl, rfl, rfl⟩
          · dsimp only
            split
            · exact ⟨Or.inl rfl, rfl, rfl⟩
            · exact ⟨Or.inl rfl, rfl, rfl⟩
        · rcases te with _ | t'
          · dsimp only
            split
            · exact ⟨Or.inl rfl, rfl, rfl⟩
            · exact ⟨Or.inl rfl, rfl, rfl⟩
          · dsimp only
            split
            · exact ⟨Or.inl rfl, rfl, rfl⟩
            · split
              · exact ⟨Or.inl rfl, rfl, rfl⟩
              · exact ⟨Or.inl rfl, rfl, rfl⟩
      | finished => exact ⟨Or.inr rfl, rfl, rfl⟩
    obtain ⟨ih1, ih2, ih3, ih4⟩ := ih (yt_hook_step ev s).2
    constructor
    · intro x hx
      rcases List.mem_append.mp hx with hx | hx
      · exact hstep x hx
      · obtain ⟨hs1, hs2, hs3⟩ := ih1 x hx
        refine ⟨?_, by rw [hs2, hstep2.2.1], by rw [hs3, hstep2.2.2]⟩
        rcases hs1 with hs1 | hs1
        · rw [hs1]
          exact hstep2.1
        · exact Or.inr hs1
    · refine ⟨?_, by rw [ih3, hstep2.2.1], by rw [ih4, hstep2.2.2]⟩
      rcases ih2 with h | h
      · rw [h]
        exact hstep2.1
      · exact Or.inr h

theorem instagrapi_attempt_facts (fid fmt : String) (q : Option String) (o : InstaOracle)
    (s : ConversionStatus) (hs : s.status ≠ "completed") :
    (∀ x ∈ (download_with_instagrapi fid fmt q o s).1, completedOk x)
    ∧ (∀ e, (download_with_instagrapi fid fmt q o s).2.2 = .error e →
        (download_with_instagrapi fid fmt q o s).2.1.status = s.status)
    ∧ (∀ x, (download_with_instagrapi fid fmt q o s).1.head? = some x → x.progress = 10) := by
  obtain ⟨ca, mr, ts, hst, tot, ch, fr, ae⟩ := o
  cases ca with
  | false =>
    refine ⟨?_, ?_, ?_⟩ <;> intro a ha <;> simp [download_with_instagrapi] at ha ⊢
  | true =>
    cases mr with
    | error e =>
      refine ⟨?_, ?_, ?_⟩ <;> intro a ha <;> simp [download_with_instagrapi] at ha ⊢
      · rcases ha with rfl | rfl <;> exact completedOk_of_ne hs
      · rw [← ha]
    | ok mi =>
      obtain ⟨mt, vv, un⟩ := mi
      by_cases hmt : mt ≠ 2
      · refine ⟨?_, ?_, ?_⟩ <;> intro a ha <;>
          simp [download_with_instagrapi, hmt] at ha ⊢
        · rcases ha with rfl | rfl <;> exact completedOk_of_ne hs
        · rw [← ha]
      · have hmt2 : mt = 2 := not_ne_iff.mp hmt
        subst hmt2
        cases vv with
        | nil =>
          refine ⟨?_, ?_, ?_⟩ <;> intro a ha <;>
            simp [download_with_instagrapi] at ha ⊢
          · rcases ha with rfl | rfl | rfl | rfl <;> exact completedOk_of_ne hs
          · rw [← ha]
        | cons v vvs =>
          cases hsel : select_video_url (v :: vvs) q with
          | error e =>
            refine ⟨?_, ?_, ?_⟩ <;> intro a ha <;>
              simp [download_with_instagrapi, hsel] at ha ⊢
            · rcases ha with rfl | rfl | rfl | rfl <;> exact completedOk_of_ne hs
            · rw [← ha]
          | ok vurl =>
            by_cases hhttp : hst ≠ 200
            · refine ⟨?_, ?_, ?_⟩ <;> intro a ha <;>
                simp [download_with_instagrapi, hsel, hhttp] at ha ⊢
              · rcases ha with rfl | rfl | rfl | rfl <;> exact completedOk_of_ne hs
              · rw [← ha]
            · have h200 : hst = 200 := not_ne_iff.mp hhttp
              subst h200
              have hchf := chunkLoopAux_fields ch tot 0
                { { { { s with progress := 10 } with
                      message := some "Fetching Instagram video info..." } with
                    progress := 30 } with message := some "Downloading video..." }
              by_cases hmp3 : (fmt == "mp3") = true
              · cases fr with
                | true =>
                  refine ⟨?_, ?_, ?_⟩ <;> intro a ha
                  · simp only [download_with_instagrapi] at ha
                    rw [hsel, if_pos hmp3] at ha
                    simp at ha
                    rcases ha with rfl | rfl | rfl | rfl | ha | rfl | rfl | rfl | rfl
                    · exact completedOk_of_ne hs
                    · exact completedOk_of_ne hs
                    · exact completedOk_of_ne hs
                    · exact completedOk_of_ne hs
                    · obtain ⟨hst', _, _⟩ := hchf.1 a ha
                      exact completedOk_of_ne (by rw [hst']; exact hs)
                    · exact completedOk_of_ne (by rw [hchf.2.1]; exact hs)
                    · exact completedOk_of_ne (by simp)
                    · exact completedOk_of_ne (by simp)
                    · intro _
                      exact ⟨rfl, durl_truthy fid _,
                        truthy_some _ (insta_filename_ne_empty un ts)⟩
                  · simp only [download_with_instagrapi] at ha ⊢
                    rw [hsel, if_pos hmp3] at ha
                    simp at ha
                  · simp only [download_with_instagrapi] at ha
                    rw [hsel, if_pos hmp3] at ha
                    simp at ha
                    rw [← ha]
                | false =>
                  cases ae with
                  | true =>
                    refine ⟨?_, ?_, ?_⟩ <;> intro a ha
                    · simp only [download_with_instagrapi] at ha
                      rw [hsel, if_pos hmp3] at ha
                      simp at ha
                      rcases ha with rfl | rfl | rfl | rfl | ha | rfl | rfl | rfl | rfl
                      · exact completedOk_of_ne hs
                      · exact completedOk_of_ne hs
                      · exact completedOk_of_ne hs
                      · exact completedOk_of_ne hs
                      · obtain ⟨hst', _, _⟩ := hchf.1 a ha
                        exact completedOk_of_ne (by rw [hst']; exact hs)
                      · exact completedOk_of_ne (by rw [hchf.2.1]; exact hs)
                      · exact completedOk_of_ne (by simp)
                      · exact completedOk_of_ne (by simp)
                      · intro _
                        exact ⟨rfl, durl_truthy fid _,
                          truthy_some _ (strReplace_ne_empty _ _ _
                            (insta_filename_ne_empty un ts) (by decide))⟩
                    · simp only [download_with_instagrapi] at ha ⊢
                      rw [hsel, if_pos hmp3] at ha
                      simp at ha
                    · simp only [download_with_instagrapi] at ha
                      rw [hsel, if_pos hmp3] at ha
                      simp at ha
                      rw [← ha]
                  | false =>
                    refine ⟨?_, ?_, ?_⟩ <;> intro a ha
                    · simp only [download_with_instagrapi] at ha
                      rw [hsel, if_pos hmp3] at ha
                      simp at ha
                      rcases ha with rfl | rfl | rfl | rfl | ha | rfl | rfl | rfl | rfl
                      · exact completedOk_of_ne hs
                      · exact completedOk_of_ne hs
                      · exact completedOk_of_ne hs
                      · exact completedOk_of_ne hs
                      · obtain ⟨hst', _, _⟩ := hchf.1 a ha
                        exact completedOk_of_ne (by rw [hst']; exact hs)
                      · exact completedOk_of_ne (by rw [hchf.2.1]; exact hs)
                      · exact completedOk_of_ne (by simp)
                      · exact completedOk_of_ne (by simp)
                      · intro _
                        exact ⟨rfl, durl_truthy fid _,
                          truthy_some _ (insta_filename_ne_empty un ts)⟩
                    · simp only [download_with_instagrapi] at ha ⊢
                      rw [hsel, if_pos hmp3] at ha
                      simp at ha
                    · simp only [download_with_instagrapi] at ha
                      rw [hsel, if_pos hmp3] at ha
                      simp at ha
                      rw [← ha]
              · refine ⟨?_, ?_, ?_⟩ <;> intro a ha
                · simp only [download_with_instagrapi] at ha
                  rw [hsel, if_neg hmp3] at ha
                  simp at ha
                  rcases ha with rfl | rfl | rfl | rfl | ha | rfl | rfl
                  · exact completedOk_of_ne hs
                  · exact completedOk_of_ne hs
                  · exact completedOk_of_ne hs
                  · exact completedOk_of_ne hs
                  · obtain ⟨hst', _, _⟩ := hchf.1 a ha
                    exact completedOk_of_ne (by rw [hst']; exact hs)
                  · exact completedOk_of_ne (by rw [hchf.2.1]; exact hs)
                  · intro _
                    exact ⟨rfl, durl_truthy fid _,
                      truthy_some _ (insta_filename_ne_empty un ts)⟩
                · simp only [download_with_instagrapi] at ha ⊢
                  rw [hsel, if_neg hmp3] at ha
                  simp at ha
                · simp only [download_with_instagrapi] at ha
                  rw [hsel, if_neg hmp3] at ha
                  simp at ha
                  rw [← ha]

theorem ytdlp_attempt_facts (fid fmt : String) (q : Option String) (o : YtdlpOracle)
    (s : ConversionStatus) (hs : s.status ≠ "completed")
    (hfiles : ∀ f ∈ o.files, f.1 ≠ "") :
    (∀ x ∈ (download_with_ytdlp fid fmt q o s).1, completedOk x)
    ∧ (∀ e, (download_with_ytdlp fid fmt q o s).2.2 = .error e →
        ((download_with_ytdlp fid fmt q o s).2.1.status = s.status
         ∨ (download_with_ytdlp fid fmt q o s).2.1.status = "downloading"))
    ∧ (∀ x, (download_with_ytdlp fid fmt q o s).1.head? = some x → x.progress = 10) := by
  obtain ⟨av, ir, evs, dr, fl⟩ := o
  simp only at hfiles
  have hkf := run_ytdlp_hooks_fields evs
    { { { { s with progress := 10 } with
          message := some "Using yt-dlp for Instagram download..." } with
        progress := 20 } with status := "downloading" }
  cases av with
  | false =>
    refine ⟨?_, ?_, ?_⟩ <;> intro a ha <;> simp [download_with_ytdlp] at ha ⊢
  | true =>
    cases ir with
    | error e =>
      refine ⟨?_, ?_, ?_⟩ <;> intro a ha <;> simp [download_with_ytdlp] at ha ⊢
      · rcases ha with rfl | rfl <;> exact completedOk_of_ne hs
      · rw [← ha]
    | ok rawTitle =>
      cases dr with
      | error e =>
        refine ⟨?_, ?_, ?_⟩ <;> intro a ha <;> simp [download_with_ytdlp] at ha ⊢
        · rcases ha with rfl | rfl | rfl | rfl | ha
          · exact completedOk_of_ne hs
          · exact completedOk_of_ne hs
          · exact completedOk_of_ne hs
          · exact completedOk_of_ne (by simp)
          · obtain ⟨hst', _, _⟩ := hkf.1 a ha
            exact completedOk_of_ne (by rw [hst']; simp)
        · exact Or.inr hkf.2.1
        · rw [← ha]
      | ok u =>
        cases fl with
        | nil =>
          refine ⟨?_, ?_, ?_⟩ <;> intro a ha <;> simp [download_with_ytdlp] at ha ⊢
          · rcases ha with rfl | rfl | rfl | rfl | ha
            · exact completedOk_of_ne hs
            · exact completedOk_of_ne hs
            · exact completedOk_of_ne hs
            · exact completedOk_of_ne (by simp)
            · obtain ⟨hst', _, _⟩ := hkf.1 a ha
              exact completedOk_of_ne (by rw [hst']; simp)
          · exact Or.inr hkf.2.1
          · rw [← ha]
        | cons f fs =>
          refine ⟨?_, ?_, ?_⟩ <;> intro a ha <;> simp [download_with_ytdlp] at ha ⊢
          · rcases ha with rfl | rfl | rfl | rfl | ha | rfl
            · exact completedOk_of_ne hs
            · exact completedOk_of_ne hs
            · exact completedOk_of_ne hs
            · exact completedOk_of_ne (by simp)
            · obtain ⟨hst', _, _⟩ := hkf.1 a ha
              exact completedOk_of_ne (by rw [hst']; simp)
            · intro _
              obtain ⟨g, hgmem, hgeq⟩ := pickMax_mem f fs
              refine ⟨rfl, durl_truthy fid _, ?_⟩
              rw [hgeq]
              exact truthy_some _ (hfiles g hgmem)
          · rw [← ha]

theorem fallback_attempt_facts (url fid fmt : String) (q : Option String) (o : FallbackOracle)
    (s : ConversionStatus) (hs : s.status ≠ "completed") :
    (∀ x ∈ (download_with_requests_fallback url fid fmt q o s).1, completedOk x)
    ∧ (∀ x, (download_with_requests_fallback url fid fmt q o s).1.head? = some x →
        x.progress = 10) := by
  obtain ⟨oe, ot, ap, hv, vs⟩ := o
  cases hsc : extract_instagram_shortcode url with
  | none =>
    refine ⟨?_, ?_⟩ <;> intro a ha <;>
      simp [download_with_requests_fallback, hsc] at ha ⊢
    · rcases ha with rfl | rfl <;> exact completedOk_of_ne hs
    · rw [← ha]
  | some sc =>
    by_cases hapi : (ap = 200 ∧ hv = true)
    · by_cases hoe : oe = 200
      · refine ⟨?_, ?_⟩ <;> intro a ha <;>
          simp [download_with_requests_fallback, hsc, hapi, hoe] at ha ⊢
        · rcases ha with rfl | rfl | rfl
          · exact completedOk_of_ne hs
          · exact completedOk_of_ne hs
          · intro _
            exact ⟨rfl, durl_truthy fid _,
              truthy_some _ (append_ne_empty_left _ _ (append_ne_empty_left _ _ (by decide)))⟩
        · rw [← ha]
      · refine ⟨?_, ?_⟩ <;> intro a ha <;>
          simp [download_with_requests_fallback, hsc, hapi, hoe] at ha ⊢
        · rcases ha with rfl | rfl | rfl
          · exact completedOk_of_ne hs
          · exact completedOk_of_ne hs
          · intro _
            exact ⟨rfl, durl_truthy fid _,
              truthy_some _ (append_ne_empty_left _ _ (append_ne_empty_left _ _ (by decide)))⟩
        · rw [← ha]
    · refine ⟨?_, ?_⟩ <;> intro a ha <;>
        simp [download_with_requests_fallback, hsc, hapi] at ha ⊢
      · rcases ha with rfl | rfl <;> exact completedOk_of_ne hs
      · rw [← ha]

/-- C4 counterexample: in an Instagram job whose instagrapi strategy
reaches progress 30 and then fails (HTTP 404 on the video fetch), the next
strategy re-initializes progress to 10: the fifth observable snapshot has
progress 30 and the ninth has progress 10, while every snapshot up to there
is still in flight (pending or initializing, never completed or failed) —
so successive polls of an in-flight job can observe a decrease across the
strategy-failure boundary. -/
theorem c4_counterexample_reset_between_strategies :
    ((instagram_job_trace "https://instagram.com/p/A/" "j" "mp4" none
        ⟨true, .ok ⟨2, [⟨480, "u"⟩], "user"⟩, "ts", 404, 0, [], false, false⟩
        ⟨false, .error "x", [], .ok (), []⟩
        ⟨500, "t", 500, false, 200⟩).map (·.progress))[5]? = some 30
    ∧ ((instagram_job_trace "https://instagram.com/p/A/" "j" "mp4" none
        ⟨true, .ok ⟨2, [⟨480, "u"⟩], "user"⟩, "ts", 404, 0, [], false, false⟩
        ⟨false, .error "x", [], .ok (), []⟩
        ⟨500, "t", 500, false, 200⟩).map (·.progress))[9]? = some 10
    ∧ (5 : Nat) < 9 ∧ (10 : Int) < 30
    ∧ ((instagram_job_trace "https://instagram.com/p/A/" "j" "mp4" none
        ⟨true, .ok ⟨2, [⟨480, "u"⟩], "user"⟩, "ts", 404, 0, [], false, false⟩
        ⟨false, .error "x", [], .ok (), []⟩
        ⟨500, "t", 500, false, 200⟩).map (·.status)).take 10 =
      ["pending", "initializing", "initializing", "initializing", "initializing",
       "initializing", "initializing", "initializing", "initializing", "initializing"] := by
  decide

/-- C4 amended: progress is non-decreasing only within one strategy
attempt: every instagrapi and requests-fallback trace is monotone, and a
yt-dlp trace is monotone whenever the external hook events report one
positive total with non-decreasing byte counts; but each strategy attempt
begins by setting progress to 10, so across a strategy-failure boundary
the next attempt can lower the observed progress (claim C4 fails there). -/
theorem c4_amended_monotone_within_strategy (url fid fmt : String) (q : Option String)
    (o1 : InstaOracle) (o2 : YtdlpOracle) (o3 : FallbackOracle) (s : ConversionStatus)
    (t : Int) :
    List.Chain' (· ≤ ·) ((download_with_instagrapi fid fmt q o1 s).1.map (·.progress))
    ∧ (0 < t → (∀ e ∈ o2.hookEvents, e.2 = t ∧ 0 ≤ e.1) →
       List.Chain' (· ≤ ·) ((0 : Int) :: o2.hookEvents.map (·.1)) →
       List.Chain' (· ≤ ·) ((download_with_ytdlp fid fmt q o2 s).1.map (·.progress)))
    ∧ List.Chain' (· ≤ ·)
        ((download_with_requests_fallback url fid fmt q o3 s).1.map (·.progress))
    ∧ (s.status ≠ "completed" → (∀ f ∈ o2.files, f.1 ≠ "") →
       (∀ x, (download_with_instagrapi fid fmt q o1 s).1.head? = some x → x.progress = 10)
       ∧ (∀ x, (download_with_ytdlp fid fmt q o2 s).1.head? = some x → x.progress = 10)
       ∧ (∀ x, (download_with_requests_fallback url fid fmt q o3 s).1.head? = some x →
           x.progress = 10)) := by
  refine ⟨instagrapi_trace_monotone fid fmt q o1 s, ?_,
    fallback_trace_monotone url fid fmt q o3 s, ?_⟩
  · intro ht hall hchain
    exact ytdlp_trace_monotone fid fmt q o2 s t ht hall hchain
  · intro hs hfiles
    exact ⟨(instagrapi_attempt_facts fid fmt q o1 s hs).2.2,
           (ytdlp_attempt_facts fid fmt q o2 s hs hfiles).2.2,
           (fallback_attempt_facts url fid fmt q o3 s hs).2⟩

/-- Concrete oracles for the C4 amended witness. -/
def o1wit : InstaOracle :=
  ⟨true, .ok ⟨2, [⟨480, "u"⟩], "user"⟩, "ts", 200, 100, [40, 40, 20], false, false⟩

def o2wit : YtdlpOracle :=
  ⟨true, .ok "title", [(100, 1000), (500, 1000)], .ok (), [("a.mp4", 5)]⟩

def o3wit : FallbackOracle := ⟨200, "t", 200, true, 200⟩

/-- C4 amended witness at concrete oracles: every strategy trace is
monotone and every attempt starts at progress 10. -/
theorem c4_amended_monotone_within_strategy_witness :
    ((0 : Int) < 1000)
    ∧ (∀ e ∈ o2wit.hookEvents, e.2 = 1000 ∧ 0 ≤ e.1)
    ∧ List.Chain' (· ≤ ·) ((0 : Int) :: o2wit.hookEvents.map (·.1))
    ∧ (pendingRecord "j").status ≠ "completed"
    ∧ (∀ f ∈ o2wit.files, f.1 ≠ "")
    ∧ List.Chain' (· ≤ ·)
        ((download_with_instagrapi "j" "mp4" none o1wit (pendingRecord "j")).1.map (·.progress))
    ∧ List.Chain' (· ≤ ·)
        ((download_with_ytdlp "j" "mp4" none o2wit (pendingRecord "j")).1.map (·.progress))
    ∧ List.Chain' (· ≤ ·)
        ((download_with_requests_fallback "https://instagram.com/p/Z/" "j" "mp4" none o3wit
          (pendingRecord "j")).1.map (·.progress))
    ∧ (∀ x, (download_with_ytdlp "j" "mp4" none o2wit (pendingRecord "j")).1.head? = some x →
        x.progress = 10) := by
  have hall : ∀ e ∈ o2wit.hookEvents, e.2 = 1000 ∧ 0 ≤ e.1 := by decide
  have hch : List.Chain' (· ≤ ·) ((0 : Int) :: o2wit.hookEvents.map (·.1)) := by
    refine List.chain'_cons.mpr ⟨by norm_num, ?_⟩
    exact List.chain'_cons.mpr ⟨by norm_num, List.chain'_singleton _⟩
  have h := c4_amended_monotone_within_strategy "https://instagram.com/p/Z/" "j" "mp4" none
    o1wit o2wit o3wit (pendingRecord "j") 1000
  refine ⟨by norm_num, hall, hch, by decide, by decide, h.1,
    h.2.1 (by norm_num) hall hch, h.2.2.1, (h.2.2.2 (by decide) (by decide)).2.1⟩

theorem append_ne_empty_right (s t : String) (h : t ≠ "") : (s ++ t) ≠ "" := by
  rw [string_data_ne] at h ⊢
  rw [String.data_append]
  simp [h]

theorem runChain_nil_trace (st : ConversionStatus) (l : Option String) :
    (runChain st [] l).1 =
      [{ st with status := "failed" },
       { { st with status := "failed" } with
         message := some ("All download methods failed. Last error: " ++ errStr l) }] := rfl

theorem runChain_cons_trace_ok (st : ConversionStatus) (nm : String) (m : Attempt)
    (rest : List (String × Attempt)) (l : Option String) (r : DlResult)
    (h : (m { st with message := some ("Trying " ++ nm ++ " method...") }).2.2 = .ok r) :
    (runChain st ((nm, m) :: rest) l).1 =
      { st with message := some ("Trying " ++ nm ++ " method...") } ::
        (m { st with message := some ("Trying " ++ nm ++ " method...") }).1 := by
  simp only [runChain]
  rw [h]

theorem runChain_cons_trace_error (st : ConversionStatus) (nm : String) (m : Attempt)
    (rest : List (String × Attempt)) (l : Option String) (e : String)
    (h : (m { st with message := some ("Trying " ++ nm ++ " method...") }).2.2 = .error e) :
    (runChain st ((nm, m) :: rest) l).1 =
      { st with message := some ("Trying " ++ nm ++ " method...") } ::
        ((m { st with message := some ("Trying " ++ nm ++ " method...") }).1 ++
          (runChain (m { st with message := some ("Trying " ++ nm ++ " method...") }).2.1
            rest (some e)).1) := by
  simp only [runChain]
  rw [h]
  rfl

theorem youtube_trace_completedOk (fid fmt : String) (q : Option String) (o : YTOracle)
    (s : ConversionStatus) (hfiles : ∀ f ∈ o.files, f.1 ≠ "") :
    ∀ x ∈ (youtube_download fid fmt q o s).1, completedOk x := by
  obtain ⟨av, ir, evs, dr, fl, fr, ae⟩ := o
  simp only at hfiles
  have hkf := run_yt_hooks_fields evs
    (⟨fid, 20, "downloading", none, none, some 120,
      some "Downloading video..."⟩ : ConversionStatus)
  have hkstep : ∀ x ∈ (run_yt_hooks evs
      (⟨fid, 20, "downloading", none, none, some 120,
        some "Downloading video..."⟩ : ConversionStatus)).1,
      completedOk x := by
    intro x hx
    obtain ⟨hst, _, _⟩ := hkf.1 x hx
    rcases hst with h | h <;> exact completedOk_of_ne (by rw [h]; simp)
  intro x hx
  cases av with
  | false => simp [youtube_download] at hx
  | true =>
    cases ir with
    | error e =>
      simp [youtube_download] at hx
      rcases hx with rfl | rfl | rfl | rfl | rfl <;> exact completedOk_of_ne (by simp [ytFailRecord])
    | ok rawTitle =>
      cases dr with
      | error e =>
        simp [youtube_download] at hx
        rcases hx with rfl | rfl | rfl | rfl | rfl | rfl | rfl | hx | rfl
        · exact completedOk_of_ne (by simp [ytFailRecord])
        · exact completedOk_of_ne (by simp [ytFailRecord])
        · exact completedOk_of_ne (by simp [ytFailRecord])
        · exact completedOk_of_ne (by simp [ytFailRecord])
        · exact completedOk_of_ne (by simp [ytFailRecord])
        · exact completedOk_of_ne (by simp [ytFailRecord])
        · exact completedOk_of_ne (by simp [ytFailRecord])
        · exact hkstep x hx
        · exact completedOk_of_ne (by simp [ytFailRecord])
      | ok u =>
        cases fl with
        | nil =>
          simp [youtube_download] at hx
          rcases hx with rfl | rfl | rfl | rfl | rfl | rfl | rfl | hx | rfl
          · exact completedOk_of_ne (by simp [ytFailRecord])
          · exact completedOk_of_ne (by simp [ytFailRecord])
          · exact completedOk_of_ne (by simp [ytFailRecord])
          · exact completedOk_of_ne (by simp [ytFailRecord])
          · exact completedOk_of_ne (by simp [ytFailRecord])
          · exact completedOk_of_ne (by simp [ytFailRecord])
          · exact completedOk_of_ne (by simp [ytFailRecord])
          · exact hkstep x hx
          · exact completedOk_of_ne (by simp [ytFailRecord])
        | cons f fs =>
          have hfn : pickMax (f :: fs) ≠ "" := by
            obtain ⟨g, hgmem, hgeq⟩ := pickMax_mem f fs
            rw [hgeq]
            exact hfiles g hgmem
          by_cases hconv : ((fmt == "mp3") = true
              ∧ ¬ ((".mp3".data).isSuffixOf (pickMax (f :: fs)).data = true))
          · cases fr with
            | true =>
              simp only [youtube_download] at hx
              rw [if_neg (by simp), if_pos hconv] at hx
              simp at hx
              rcases hx with rfl | rfl | rfl | rfl | rfl | rfl | rfl | hx | rfl | rfl | rfl | rfl
              · exact completedOk_of_ne (by simp [ytFailRecord])
              · exact completedOk_of_ne (by simp [ytFailRecord])
              · exact completedOk_of_ne (by simp [ytFailRecord])
              · exact completedOk_of_ne (by simp [ytFailRecord])
              · exact completedOk_of_ne (by simp [ytFailRecord])
              · exact completedOk_of_ne (by simp [ytFailRecord])
              · exact completedOk_of_ne (by simp [ytFailRecord])
              · exact hkstep x hx
              · refine completedOk_of_ne ?_
                rcases hkf.2.1 with h | h <;> (rw [show _ = _ from h]; simp)
              · exact completedOk_of_ne (by simp [ytFailRecord])
              · exact completedOk_of_ne (by simp [ytFailRecord])
              · intro _
                exact ⟨rfl, durl_truthy fid _, truthy_some _ hfn⟩
            | false =>
              cases ae with
              | true =>
                simp only [youtube_download] at hx
                rw [if_neg (by simp), if_pos hconv] at hx
                simp at hx
                rcases hx with rfl | rfl | rfl | rfl | rfl | rfl | rfl | hx | rfl | rfl | rfl | rfl
                · exact completedOk_of_ne (by simp [ytFailRecord])
                · exact completedOk_of_ne (by simp [ytFailRecord])
                · exact completedOk_of_ne (by simp [ytFailRecord])
                · exact completedOk_of_ne (by simp [ytFailRecord])
                · exact completedOk_of_ne (by simp [ytFailRecord])
                · exact completedOk_of_ne (by simp [ytFailRecord])
                · exact completedOk_of_ne (by simp [ytFailRecord])
                · exact hkstep x hx
                · refine completedOk_of_ne ?_
                  rcases hkf.2.1 with h | h <;> (rw [show _ = _ from h]; simp)
                · exact completedOk_of_ne (by simp [ytFailRecord])
                · exact completedOk_of_ne (by simp [ytFailRecord])
                · intro _
                  refine ⟨rfl, durl_truthy fid _, truthy_some _ ?_⟩
                  exact append_ne_empty_right _ _ (by decide)
              | false =>
                simp only [youtube_download] at hx
                rw [if_neg (by simp), if_pos hconv] at hx
                simp at hx
                rcases hx with rfl | rfl | rfl | rfl | rfl | rfl | rfl | hx | rfl | rfl | rfl | rfl
                · exact completedOk_of_ne (by simp [ytFailRecord])
                · exact completedOk_of_ne (by simp [ytFailRecord])
                · exact completedOk_of_ne (by simp [ytFailRecord])
                · exact completedOk_of_ne (by simp [ytFailRecord])
                · exact completedOk_of_ne (by simp [ytFailRecord])
                · exact completedOk_of_ne (by simp [ytFailRecord])
                · exact completedOk_of_ne (by simp [ytFailRecord])
                · exact hkstep x hx
                · refine completedOk_of_ne ?_
                  rcases hkf.2.1 with h | h <;> (rw [show _ = _ from h]; simp)
                · exact completedOk_of_ne (by simp [ytFailRecord])
                · exact completedOk_of_ne (by simp [ytFailRecord])
                · intro _
                  exact ⟨rfl, durl_truthy fid _, truthy_some _ hfn⟩
          · simp only [youtube_download] at hx
            rw [if_neg (by simp), if_neg hconv] at hx
            simp at hx
            rcases hx with rfl | rfl | rfl | rfl | rfl | rfl | rfl | hx | rfl
            · exact completedOk_of_ne (by simp [ytFailRecord])
            · exact completedOk_of_ne (by simp [ytFailRecord])
            · exact completedOk_of_ne (by simp [ytFailRecord])
            · exact completedOk_of_ne (by simp [ytFailRecord])
            · exact completedOk_of_ne (by simp [ytFailRecord])
            · exact completedOk_of_ne (by simp [ytFailRecord])
            · exact completedOk_of_ne (by simp [ytFailRecord])
            · exact hkstep x hx
            · intro _
              exact ⟨rfl, durl_truthy fid _, truthy_some _ hfn⟩

theorem chain1_completedOk (url fid fmt : String) (q : Option String) (o3 : FallbackOracle)
    (st : ConversionStatus) (hst : st.status ≠ "completed") (l : Option String) :
    ∀ x ∈ (runChain st
      [("requests_fallback", download_with_requests_fallback url fid fmt q o3)] l).1,
      completedOk x := by
  intro x hx
  have h3 := fallback_attempt_facts url fid fmt q o3
    { st with message := some ("Trying " ++ "requests_fallback" ++ " method...") } hst
  cases hc3 : (download_with_requests_fallback url fid fmt q o3
      { st with message := some ("Trying " ++ "requests_fallback" ++ " method...") }).2.2 with
  | ok r =>
    rw [runChain_cons_trace_ok st "requests_fallback" _ _ l r hc3] at hx
    rcases List.mem_cons.mp hx with rfl | hx
    · exact completedOk_of_ne hst
    · exact h3.1 x hx
  | error e =>
    rw [runChain_cons_trace_error st "requests_fallback" _ _ l e hc3] at hx
    rcases List.mem_cons.mp hx with rfl | hx
    · exact completedOk_of_ne hst
    rcases List.mem_append.mp hx with hx | hx
    · exact h3.1 x hx
    · rw [runChain_nil_trace] at hx
      rcases List.mem_cons.mp hx with rfl | hx
      · exact completedOk_of_ne (by simp)
      rcases List.mem_cons.mp hx with rfl | hx
      · exact completedOk_of_ne (by simp)
      · simp at hx

theorem chain2_completedOk (url fid fmt : String) (q : Option String)
    (o2 : YtdlpOracle) (o3 : FallbackOracle)
    (hfiles : ∀ f ∈ o2.files, f.1 ≠ "")
    (st : ConversionStatus) (hst : st.status = "initializing") (l : Option String) :
    ∀ x ∈ (runChain st
      [("ytdlp", download_with_ytdlp fid fmt q o2),
       ("requests_fallback", download_with_requests_fallback url fid fmt q o3)] l).1,
      completedOk x := by
  intro x hx
  have h2 := ytdlp_attempt_facts fid fmt q o2
    { st with message := some ("Trying " ++ "ytdlp" ++ " method...") }
    (by simp [hst]) hfiles
  cases hc2 : (download_with_ytdlp fid fmt q o2
      { st with message := some ("Trying " ++ "ytdlp" ++ " method...") }).2.2 with
  | ok r =>
    rw [runChain_cons_trace_ok st "ytdlp" _ _ l r hc2] at hx
    rcases List.mem_cons.mp hx with rfl | hx
    · exact completedOk_of_ne (by simp [hst])
    · exact h2.1 x hx
  | error e =>
    rw [runChain_cons_trace_error st "ytdlp" _ _ l e hc2] at hx
    rcases List.mem_cons.mp hx with rfl | hx
    · exact completedOk_of_ne (by simp [hst])
    rcases List.mem_append.mp hx with hx | hx
    · exact h2.1 x hx
    · have hfin : (download_with_ytdlp fid fmt q o2
          { st with message := some ("Trying " ++ "ytdlp" ++ " method...") }).2.1.status
          ≠ "completed" := by
        rcases h2.2.1 e hc2 with h | h <;> rw [h] <;> simp [hst]
      exact chain1_completedOk url fid fmt q o3 _ hfin (some e) x hx

theorem chain3_completedOk (url fid fmt : String) (q : Option String)
    (o1 : InstaOracle) (o2 : YtdlpOracle) (o3 : FallbackOracle)
    (hfiles : ∀ f ∈ o2.files, f.1 ≠ "")
    (st : ConversionStatus) (hst : st.status = "initializing") (l : Option String) :
    ∀ x ∈ (runChain st
      [("instagrapi", download_with_instagrapi fid fmt q o1),
       ("ytdlp", download_with_ytdlp fid fmt q o2),
       ("requests_fallback", download_with_requests_fallback url fid fmt q o3)] l).1,
      completedOk x := by
  intro x hx
  have h1 := instagrapi_attempt_facts fid fmt q o1
    { st with message := some ("Trying " ++ "instagrapi" ++ " method...") }
    (by simp [hst])
  cases hc1 : (download_with_instagrapi fid fmt q o1
      { st with message := some ("Trying " ++ "instagrapi" ++ " method...") }).2.2 with
  | ok r =>
    rw [runChain_cons_trace_ok st "instagrapi" _ _ l r hc1] at hx
    rcases List.mem_cons.mp hx with rfl | hx
    · exact completedOk_of_ne (by simp [hst])
    · exact h1.1 x hx
  | error e =>
    rw [runChain_cons_trace_error st "instagrapi" _ _ l e hc1] at hx
    rcases List.mem_cons.mp hx with rfl | hx
    · exact completedOk_of_ne (by simp [hst])
    rcases List.mem_append.mp hx with hx | hx
    · exact h1.1 x hx
    · have hfin : (download_with_instagrapi fid fmt q o1
          { st with message := some ("Trying " ++ "instagrapi" ++ " method...") }).2.1.status
          = "initializing" := by
        rw [h1.2.1 e hc1]; simp [hst]
      exact chain2_completedOk url fid fmt q o2 o3 hfiles _ hfin (some e) x hx

theorem instagram_trace_completedOk (url fid fmt : String) (q : Option String)
    (o1 : InstaOracle) (o2 : YtdlpOracle) (o3 : FallbackOracle)
    (hfiles : ∀ f ∈ o2.files, f.1 ≠ "") :
    ∀ x ∈ (instagram_download url fid fmt q o1 o2 o3).1, completedOk x := by
  intro x hx
  simp only [instagram_download] at hx
  rcases List.mem_cons.mp hx with rfl | hx
  · exact completedOk_of_ne (by simp)
  · exact chain3_completedOk url fid fmt q o1 o2 o3 hfiles _ rfl _ x hx

theorem lookupS_mem (m : StatusMap) (k : String) (v : ConversionStatus)
    (h : lookupS m k = some v) : ∃ k2, (k2, v) ∈ m := by
  induction m with
  | nil => simp [lookupS] at h
  | cons p t ih =>
    obtain ⟨k1, v1⟩ := p
    simp only [lookupS] at h
    by_cases hk : (k1 == k) = true
    · rw [if_pos hk] at h
      injection h with h
      subst h
      exact ⟨k1, List.mem_cons_self _ _⟩
    · rw [if_neg hk] at h
      obtain ⟨k2, hm⟩ := ih h
      exact ⟨k2, List.mem_cons_of_mem _ hm⟩

theorem setS_mem (m : StatusMap) (k : String) (v : ConversionStatus) :
    ∀ p ∈ setS m k v, p.2 = v ∨ p ∈ m := by
  induction m with
  | nil =>
    intro p hp
    simp [setS] at hp
    rw [hp]
    exact Or.inl rfl
  | cons q t ih =>
    obtain ⟨k1, v1⟩ := q
    intro p hp
    simp only [setS] at hp
    by_cases hk : (k1 == k) = true
    · rw [if_pos hk] at hp
      rcases List.mem_cons.mp hp with rfl | hp
      · exact Or.inl rfl
      · exact Or.inr (List.mem_cons_of_mem _ hp)
    · rw [if_neg hk] at hp
      rcases List.mem_cons.mp hp with rfl | hp
      · exact Or.inr (List.mem_cons_self _ _)
      · rcases ih p hp with h | h
        · exact Or.inl h
        · exact Or.inr (List.mem_cons_of_mem _ h)

theorem get_progress_preserves_completedOk (m : StatusMap) (d : Bool) (fid : String)
    (st : ConversionStatus) (m2 : StatusMap)
    (hm : ∀ p ∈ m, completedOk p.2)
    (h : get_progress m d fid = .ok (st, m2)) :
    completedOk st ∧ ∀ p ∈ m2, completedOk p.2 := by
  cases hl : lookupS m fid with
  | none =>
    simp only [get_progress, hl] at h
    cases h
  | some v =>
    simp only [get_progress, hl] at h
    by_cases hc : ((v.status == "completed" || v.status == "failed")
        && truthyStr v.download_url && !d) = true
    · rw [if_pos hc] at h
      rw [Except.ok.injEq, Prod.mk.injEq] at h
      obtain ⟨rfl, rfl⟩ := h
      refine ⟨completedOk_of_ne (by simp), ?_⟩
      intro p hp
      rcases setS_mem m fid _ p hp with h | h
      · rw [h]; exact completedOk_of_ne (by simp)
      · exact hm p h
    · rw [if_neg hc] at h
      rw [Except.ok.injEq, Prod.mk.injEq] at h
      obtain ⟨rfl, rfl⟩ := h
      obtain ⟨k2, hmem⟩ := lookupS_mem m fid v hl
      exact ⟨hm _ hmem, hm⟩

/-- Concrete YouTube oracle for the C1 witness. -/
def oywit : YTOracle :=
  ⟨true, .ok "My Video", [.downloading 500 (some 1000) none, .finished], .ok (),
   [("v.mp4", 3)], false, false⟩

/-- Concrete tracker map for the C1 witness. -/
def c1rec : ConversionStatus :=
  ⟨"j1", 100, "completed", some "/download/j1/v.mp4", some "v.mp4", some 0, none⟩

def c1map : StatusMap := [("j1", c1rec)]

/-- C1: every observable tracker state of an Instagram or a YouTube job
that has status "completed" simultaneously has progress 100 and non-empty
download_url and filename — each downloader installs the completed record
as a single whole-record replacement, so no snapshot shows completed with
the URL missing — and the progress endpoint preserves this invariant on
the record it returns and on the map it leaves behind. -/
theorem c1_completed_atomic
    (url fid fmt : String) (q : Option String)
    (o1 : InstaOracle) (o2 : YtdlpOracle) (o3 : FallbackOracle) (oy : YTOracle)
    (m : StatusMap) (d : Bool) (pid : String) (st : ConversionStatus) (m2 : StatusMap)
    (h2 : ∀ f ∈ o2.files, f.1 ≠ "") (hy : ∀ f ∈ oy.files, f.1 ≠ "")
    (hm : ∀ p ∈ m, completedOk p.2)
    (hg : get_progress m d pid = .ok (st, m2)) :
    (∀ x ∈ instagram_job_trace url fid fmt q o1 o2 o3, completedOk x)
    ∧ (∀ x ∈ youtube_job_trace fid fmt q oy, completedOk x)
    ∧ completedOk st ∧ ∀ p ∈ m2, completedOk p.2 := by
  refine ⟨?_, ?_, ?_⟩
  · intro x hx
    simp only [instagram_job_trace] at hx
    rcases List.mem_cons.mp hx with rfl | hx
    · exact completedOk_of_ne (by simp [pendingRecord])
    · exact instagram_trace_completedOk url fid fmt q o1 o2 o3 h2 x hx
  · intro x hx
    simp only [youtube_job_trace] at hx
    rcases List.mem_cons.mp hx with rfl | hx
    · exact completedOk_of_ne (by simp [pendingRecord])
    · exact youtube_trace_completedOk fid fmt q oy _ hy x hx
  · exact get_progress_preserves_completedOk m d pid st m2 hm hg

/-- C1 witness at concrete oracles and a concrete tracker map. -/
theorem c1_completed_atomic_witness :
    (∀ f ∈ o2wit.files, f.1 ≠ "")
    ∧ (∀ f ∈ oywit.files, f.1 ≠ "")
    ∧ (∀ p ∈ c1map, completedOk p.2)
    ∧ get_progress c1map true "j1" = .ok (c1rec, c1map)
    ∧ ((∀ x ∈ instagram_job_trace "https://instagram.com/p/Z/" "j" "mp4" none
          o1wit o2wit o3wit, completedOk x)
       ∧ (∀ x ∈ youtube_job_trace "j" "mp4" none oywit, completedOk x)
       ∧ completedOk c1rec ∧ ∀ p ∈ c1map, completedOk p.2) :=
  ⟨by decide, by decide, by decide, by decide,
   c1_completed_atomic "https://instagram.com/p/Z/" "j" "mp4" none o1wit o2wit o3wit oywit
     c1map true "j1" c1rec c1map (by decide) (by decide) (by decide) (by decide)⟩
